import Mathlib

/-!
Shallow embedding of the footprint-mcp encrypted evidence store.

JavaScript strings are modelled as lists of Unicode code points (`JSStr`),
byte buffers (`Uint8Array`, `Buffer`) as lists of natural numbers below 256,
and the SQLite-backed record store as a list of `Evidence` records.  Fallible
operations return `Except`.  Sources of randomness and the current clock are
passed as explicit parameters.
-/

/-- JavaScript strings, modelled as lists of Unicode code points. -/
abbrev JSStr := List Nat

instance {ε α : Type} [DecidableEq ε] [DecidableEq α] : DecidableEq (Except ε α) :=
  fun x y =>
    match x, y with
    | .ok a, .ok b =>
      match decEq a b with
      | isTrue h => isTrue (by rw [h])
      | isFalse h => isFalse (fun hc => h (Except.ok.inj hc))
    | .error a, .error b =>
      match decEq a b with
      | isTrue h => isTrue (by rw [h])
      | isFalse h => isFalse (fun hc => h (Except.error.inj hc))
    | .ok _, .error _ => isFalse (fun hc => Except.noConfusion hc)
    | .error _, .ok _ => isFalse (fun hc => Except.noConfusion hc)

/-- Build a `JSStr` from a Lean string literal (used for concrete inputs). -/
def jstr (s : String) : JSStr := s.data.map Char.toNat

/-- The whitespace code points removed by `String.prototype.trim`. -/
def jsSpace (c : Nat) : Bool :=
  c == 9 || c == 10 || c == 11 || c == 12 || c == 13 || c == 32 ||
  c == 160 || c == 0x1680 || c == 0x2000 || c == 0x2001 || c == 0x2002 ||
  c == 0x2003 || c == 0x2004 || c == 0x2005 || c == 0x2006 || c == 0x2007 ||
  c == 0x2008 || c == 0x2009 || c == 0x200A || c == 0x2028 || c == 0x2029 ||
  c == 0x202F || c == 0x205F || c == 0x3000 || c == 0xFEFF

/-- `String.prototype.trim`. -/
def trimStr (s : JSStr) : JSStr :=
  ((s.dropWhile jsSpace).reverse.dropWhile jsSpace).reverse

/-- SQLite `LIKE` folds ASCII upper case letters onto lower case. -/
def likeFold (c : Nat) : Nat := if 65 ≤ c && c ≤ 90 then c + 32 else c

/-- Does `f` hold of some suffix of `s`?  Used for the `%` wildcard. -/
def anySuffix (f : List Nat → Bool) : List Nat → Bool
  | [] => f []
  | c :: s' => f (c :: s') || anySuffix f s'

/-- SQLite `LIKE` pattern matching: `%` matches any sequence, `_` any single
character, other characters compare ASCII-case-insensitively. -/
def likeMatch : List Nat → List Nat → Bool
  | [], s => s == []
  | c :: p', s =>
    if c == 37 then
      anySuffix (likeMatch p') s
    else if c == 95 then
      match s with
      | [] => false
      | _ :: s' => likeMatch p' s'
    else
      match s with
      | [] => false
      | d :: s' => likeFold c == likeFold d && likeMatch p' s'

/-- `p` is a prefix of `s` (exact code-point comparison). -/
def strStarts (p s : List Nat) : Bool :=
  match p, s with
  | [], _ => true
  | _ :: _, [] => false
  | c :: p', d :: s' => c == d && strStarts p' s'

/-- `p` occurs as a contiguous substring of `s`. -/
def containsStr (p s : List Nat) : Bool :=
  strStarts p s ||
    match s with
    | [] => false
    | _ :: s' => containsStr p s'

/-- `p` is a suffix of `s`. -/
def strEnds (p s : List Nat) : Bool :=
  p == s ||
    match s with
    | [] => false
    | _ :: s' => strEnds p s'

/-- `String.prototype.split(",")`. -/
def splitComma (s : JSStr) : List JSStr :=
  match s with
  | [] => [[]]
  | c :: rest =>
    if c == 44 then [] :: splitComma rest
    else
      match splitComma rest with
      | [] => [[c]]
      | t :: ts => (c :: t) :: ts

/-- `Array.prototype.join(",")`. -/
def joinComma : List JSStr → JSStr
  | [] => []
  | [t] => t
  | t :: ts => t ++ 44 :: joinComma ts

/-- Helper for `jsDedup`: drop elements already seen. -/
def jsDedupAux (seen : List JSStr) : List JSStr → List JSStr
  | [] => []
  | t :: ts =>
    if seen.contains t then jsDedupAux seen ts
    else t :: jsDedupAux (t :: seen) ts

/-- `[...new Set(xs)]`: deduplication keeping first occurrences. -/
def jsDedup (l : List JSStr) : List JSStr := jsDedupAux [] l

/-- Binary (memcmp-style) string order used by SQLite text comparison;
`lexLe a b` means `a ≤ b`. -/
def lexLe (a b : List Nat) : Bool :=
  match a, b with
  | [], _ => true
  | _ :: _, [] => false
  | c :: a', d :: b' => c < d || (c == d && lexLe a' b')

/-! ## UTF-8 (TextEncoder / TextDecoder) -/

/-- A Unicode scalar value: in range and not a surrogate. -/
def validScalar (v : Nat) : Prop := v < 0x110000 ∧ (v < 0xD800 ∨ 0xDFFF < v)

instance (v : Nat) : Decidable (validScalar v) := by
  unfold validScalar; infer_instance

/-- UTF-8 encoding of one scalar value. -/
def utf8EncodeCp (v : Nat) : List Nat :=
  if v < 0x80 then [v]
  else if v < 0x800 then [0xC0 + v / 64, 0x80 + v % 64]
  else if v < 0x10000 then
    [0xE0 + v / 4096, 0x80 + v / 64 % 64, 0x80 + v % 64]
  else
    [0xF0 + v / 262144, 0x80 + v / 4096 % 64, 0x80 + v / 64 % 64, 0x80 + v % 64]

/-- `TextEncoder.encode`: UTF-8 bytes of a string. -/
def utf8Encode (s : JSStr) : List Nat := s.flatMap utf8EncodeCp

/-- Decode the continuation of a two-byte UTF-8 sequence. -/
def utf8Cont2 (b0 : Nat) : List Nat → Option (Nat × List Nat)
  | b1 :: r2 =>
    if 0x80 ≤ b1 ∧ b1 < 0xC0 then some ((b0 - 0xC0) * 64 + (b1 - 0x80), r2)
    else none
  | [] => none

/-- Decode the continuation of a three-byte UTF-8 sequence. -/
def utf8Cont3 (b0 : Nat) : List Nat → Option (Nat × List Nat)
  | b1 :: b2 :: r3 =>
    if (0x80 ≤ b1 ∧ b1 < 0xC0) ∧ (0x80 ≤ b2 ∧ b2 < 0xC0) then
      if 0x800 ≤ (b0 - 0xE0) * 4096 + (b1 - 0x80) * 64 + (b2 - 0x80) ∧
          ¬(0xD800 ≤ (b0 - 0xE0) * 4096 + (b1 - 0x80) * 64 + (b2 - 0x80) ∧
            (b0 - 0xE0) * 4096 + (b1 - 0x80) * 64 + (b2 - 0x80) ≤ 0xDFFF) then
        some ((b0 - 0xE0) * 4096 + (b1 - 0x80) * 64 + (b2 - 0x80), r3)
      else none
    else none
  | _ => none

/-- Decode the continuation of a four-byte UTF-8 sequence. -/
def utf8Cont4 (b0 : Nat) : List Nat → Option (Nat × List Nat)
  | b1 :: b2 :: b3 :: r4 =>
    if (0x80 ≤ b1 ∧ b1 < 0xC0) ∧ (0x80 ≤ b2 ∧ b2 < 0xC0) ∧
        (0x80 ≤ b3 ∧ b3 < 0xC0) then
      if 0x10000 ≤ (b0 - 0xF0) * 262144 + (b1 - 0x80) * 4096 +
            (b2 - 0x80) * 64 + (b3 - 0x80) ∧
          (b0 - 0xF0) * 262144 + (b1 - 0x80) * 4096 +
            (b2 - 0x80) * 64 + (b3 - 0x80) < 0x110000 then
        some ((b0 - 0xF0) * 262144 + (b1 - 0x80) * 4096 +
          (b2 - 0x80) * 64 + (b3 - 0x80), r4)
      else none
    else none
  | _ => none

/-- Decode one UTF-8 sequence; `none` on an invalid leading sequence. -/
def utf8DecodeOne : List Nat → Option (Nat × List Nat)
  | [] => none
  | b0 :: r =>
    if b0 < 0x80 then some (b0, r)
    else if b0 < 0xC2 then none
    else if b0 < 0xE0 then utf8Cont2 b0 r
    else if b0 < 0xF0 then utf8Cont3 b0 r
    else if b0 < 0xF5 then utf8Cont4 b0 r
    else none

/-- Fuelled UTF-8 decoding loop; invalid sequences yield U+FFFD. -/
def utf8DecodeF : Nat → List Nat → JSStr
  | 0, _ => []
  | _ + 1, [] => []
  | f + 1, b :: bs =>
    match utf8DecodeOne (b :: bs) with
    | some (v, rest) => v :: utf8DecodeF f rest
    | none => 0xFFFD :: utf8DecodeF f bs

/-- UTF-8 decoding with replacement of invalid sequences. -/
def utf8Decode (bs : List Nat) : JSStr := utf8DecodeF bs.length bs

/-- `new TextDecoder().decode`: per WHATWG a leading byte order mark is
stripped (the default decoder has `ignoreBOM` unset). -/
def textDecode (bs : List Nat) : JSStr :=
  let body := if strStarts [0xEF, 0xBB, 0xBF] bs then bs.drop 3 else bs
  utf8Decode body

/-! ## XChaCha20-Poly1305 (noble-ciphers `xchacha20poly1305`) -/

/-- Truncate to a 32-bit word. -/
def w32 (x : Nat) : Nat := x % 4294967296

/-- 32-bit modular addition. -/
def add32 (a b : Nat) : Nat := (a + b) % 4294967296

/-- 32-bit left rotation. -/
def rotl32 (x n : Nat) : Nat := (x * 2 ^ n) % 4294967296 ||| x / 2 ^ (32 - n)

/-- The 16-word ChaCha state. -/
structure ChaChaSt where
  x0 : Nat
  x1 : Nat
  x2 : Nat
  x3 : Nat
  x4 : Nat
  x5 : Nat
  x6 : Nat
  x7 : Nat
  x8 : Nat
  x9 : Nat
  x10 : Nat
  x11 : Nat
  x12 : Nat
  x13 : Nat
  x14 : Nat
  x15 : Nat

/-- The ChaCha quarter round. -/
def qr (a b c d : Nat) : Nat × Nat × Nat × Nat :=
  let a := add32 a b
  let d := rotl32 (d ^^^ a) 16
  let c := add32 c d
  let b := rotl32 (b ^^^ c) 12
  let a := add32 a b
  let d := rotl32 (d ^^^ a) 8
  let c := add32 c d
  let b := rotl32 (b ^^^ c) 7
  (a, b, c, d)

/-- Column round of ChaCha. -/
def columnRound (s : ChaChaSt) : ChaChaSt :=
  let (a0, a4, a8, a12) := qr s.x0 s.x4 s.x8 s.x12
  let (a1, a5, a9, a13) := qr s.x1 s.x5 s.x9 s.x13
  let (a2, a6, a10, a14) := qr s.x2 s.x6 s.x10 s.x14
  let (a3, a7, a11, a15) := qr s.x3 s.x7 s.x11 s.x15
  ⟨a0, a1, a2, a3, a4, a5, a6, a7, a8, a9, a10, a11, a12, a13, a14, a15⟩

/-- Diagonal round of ChaCha. -/
def diagRound (s : ChaChaSt) : ChaChaSt :=
  let (a0, a5, a10, a15) := qr s.x0 s.x5 s.x10 s.x15
  let (a1, a6, a11, a12) := qr s.x1 s.x6 s.x11 s.x12
  let (a2, a7, a8, a13) := qr s.x2 s.x7 s.x8 s.x13
  let (a3, a4, a9, a14) := qr s.x3 s.x4 s.x9 s.x14
  ⟨a0, a1, a2, a3, a4, a5, a6, a7, a8, a9, a10, a11, a12, a13, a14, a15⟩

/-- One ChaCha double round. -/
def doubleRound (s : ChaChaSt) : ChaChaSt := diagRound (columnRound s)

/-- Twenty ChaCha rounds (ten double rounds). -/
def rounds20 (s : ChaChaSt) : ChaChaSt := doubleRound^[10] s

/-- Read byte `j` of a buffer (0 past the end). -/
def byteAt (l : List Nat) (j : Nat) : Nat := l.getD j 0

/-- Little-endian 32-bit word `i` of a byte buffer. -/
def le32Word (b : List Nat) (i : Nat) : Nat :=
  byteAt b (4 * i) + byteAt b (4 * i + 1) * 256 +
    byteAt b (4 * i + 2) * 65536 + byteAt b (4 * i + 3) * 16777216

/-- Little-endian bytes of a 32-bit word. -/
def le32Bytes (w : Nat) : List Nat :=
  [w % 256, w / 256 % 256, w / 65536 % 256, w / 16777216 % 256]

/-- Initial ChaCha20 state from key, block counter and 12-byte nonce. -/
def chachaInit (key : List Nat) (counter : Nat) (nonce : List Nat) : ChaChaSt :=
  ⟨0x61707865, 0x3320646e, 0x79622d32, 0x6b206574,
    le32Word key 0, le32Word key 1, le32Word key 2, le32Word key 3,
    le32Word key 4, le32Word key 5, le32Word key 6, le32Word key 7,
    w32 counter, le32Word nonce 0, le32Word nonce 1, le32Word nonce 2⟩

/-- Word-wise 32-bit addition of two states. -/
def addSt (a b : ChaChaSt) : ChaChaSt :=
  ⟨add32 a.x0 b.x0, add32 a.x1 b.x1, add32 a.x2 b.x2, add32 a.x3 b.x3,
    add32 a.x4 b.x4, add32 a.x5 b.x5, add32 a.x6 b.x6, add32 a.x7 b.x7,
    add32 a.x8 b.x8, add32 a.x9 b.x9, add32 a.x10 b.x10, add32 a.x11 b.x11,
    add32 a.x12 b.x12, add32 a.x13 b.x13, add32 a.x14 b.x14, add32 a.x15 b.x15⟩

/-- Serialize a state to 64 little-endian bytes. -/
def serializeSt (s : ChaChaSt) : List Nat :=
  le32Bytes s.x0 ++ le32Bytes s.x1 ++ le32Bytes s.x2 ++ le32Bytes s.x3 ++
  le32Bytes s.x4 ++ le32Bytes s.x5 ++ le32Bytes s.x6 ++ le32Bytes s.x7 ++
  le32Bytes s.x8 ++ le32Bytes s.x9 ++ le32Bytes s.x10 ++ le32Bytes s.x11 ++
  le32Bytes s.x12 ++ le32Bytes s.x13 ++ le32Bytes s.x14 ++ le32Bytes s.x15

/-- One 64-byte ChaCha20 block. -/
def chachaBlock (key : List Nat) (counter : Nat) (nonce : List Nat) : List Nat :=
  let s0 := chachaInit key counter nonce
  serializeSt (addSt (rounds20 s0) s0)

/-- `len` bytes of ChaCha20 keystream starting at block `counter`. -/
def chachaKeystream (key nonce : List Nat) (counter len : Nat) : List Nat :=
  (((List.range ((len + 63) / 64)).map
    (fun i => chachaBlock key (counter + i) nonce)).flatten).take len

/-- HChaCha20 subkey derivation (first 16 nonce bytes). -/
def hchacha (key nonce16 : List Nat) : List Nat :=
  let s0 : ChaChaSt :=
    ⟨0x61707865, 0x3320646e, 0x79622d32, 0x6b206574,
      le32Word key 0, le32Word key 1, le32Word key 2, le32Word key 3,
      le32Word key 4, le32Word key 5, le32Word key 6, le32Word key 7,
      le32Word nonce16 0, le32Word nonce16 1, le32Word nonce16 2, le32Word nonce16 3⟩
  let s := rounds20 s0
  le32Bytes s.x0 ++ le32Bytes s.x1 ++ le32Bytes s.x2 ++ le32Bytes s.x3 ++
  le32Bytes s.x12 ++ le32Bytes s.x13 ++ le32Bytes s.x14 ++ le32Bytes s.x15

/-- Little-endian number of a byte list. -/
def leNum : List Nat → Nat
  | [] => 0
  | b :: bs => b + 256 * leNum bs

/-- `n` little-endian bytes of `x`. -/
def leBytes (n x : Nat) : List Nat := (List.range n).map (fun i => x / 256 ^ i % 256)

/-- The Poly1305 prime `2^130 - 5`. -/
def polyP : Nat := 2 ^ 130 - 5

/-- Fuelled Poly1305 accumulation over 16-byte chunks. -/
def polyAccF : Nat → Nat → Nat → List Nat → Nat
  | 0, _, acc, _ => acc
  | _ + 1, _, acc, [] => acc
  | f + 1, r, acc, m :: ms =>
    polyAccF f r (((acc + leNum (((m :: ms).take 16) ++ [1])) * r) % polyP) (ms.drop 15)

/-- Poly1305 MAC with one-time key `otk`. -/
def poly1305 (otk msg : List Nat) : List Nat :=
  let r := leNum (otk.take 16) &&& 0x0ffffffc0ffffffc0ffffffc0fffffff
  let s := leNum ((otk.drop 16).take 16)
  leBytes 16 ((polyAccF msg.length r 0 msg + s) % 2 ^ 128)

/-- Zero padding of a buffer to a 16-byte boundary. -/
def pad16 (l : List Nat) : List Nat :=
  if l.length % 16 == 0 then [] else List.replicate (16 - l.length % 16) 0

/-- RFC 8439 AEAD tag over a ciphertext with empty associated data. -/
def aeadTag (key nonce ct : List Nat) : List Nat :=
  let otk := (chachaBlock key 0 nonce).take 32
  poly1305 otk (ct ++ pad16 ct ++ leBytes 8 0 ++ leBytes 8 ct.length)

/-- XChaCha20 subkey from a 24-byte nonce. -/
def xchachaSub (key nonce24 : List Nat) : List Nat := hchacha key (nonce24.take 16)

/-- The 12-byte ChaCha nonce used by XChaCha20. -/
def xchachaNonce (nonce24 : List Nat) : List Nat := [0, 0, 0, 0] ++ nonce24.drop 16

/-- XChaCha20-Poly1305 sealing: ciphertext with the 16-byte tag appended. -/
def xchachaEncrypt (key nonce24 pt : List Nat) : List Nat :=
  let sub := xchachaSub key nonce24
  let n := xchachaNonce nonce24
  let ct := List.zipWith (fun a b => a ^^^ b) pt (chachaKeystream sub n 1 pt.length)
  ct ++ aeadTag sub n ct

/-- XChaCha20-Poly1305 opening: `none` when the tag does not verify. -/
def xchachaDecrypt (key nonce24 data : List Nat) : Option (List Nat) :=
  if data.length < 16 then none
  else
    let sub := xchachaSub key nonce24
    let n := xchachaNonce nonce24
    let ct := data.take (data.length - 16)
    let tag := data.drop (data.length - 16)
    if aeadTag sub n ct == tag then
      some (List.zipWith (fun a b => a ^^^ b) ct (chachaKeystream sub n 1 ct.length))
    else none

/-- Ciphertext/nonce pair returned by `encrypt` (src/lib/crypto/encrypt.ts). -/
structure EncryptedData where
  ciphertext : List Nat
  nonce : List Nat
deriving DecidableEq

/-- src/lib/crypto/encrypt.ts `encrypt`.  The 24 random bytes produced by
`randomBytes(24)` are passed explicitly as `rand`. -/
def encrypt (plaintext : JSStr) (key : List Nat) (rand : List Nat) :
    Except JSStr EncryptedData :=
  if key.length != 32 then .error (jstr "Key must be 32 bytes")
  else
    .ok ⟨xchachaEncrypt key rand (utf8Encode plaintext), rand⟩

/-- src/lib/crypto/decrypt.ts `decrypt`. -/
def decrypt (ciphertext nonce key : List Nat) : Except JSStr JSStr :=
  if key.length != 32 then .error (jstr "Key must be 32 bytes")
  else if nonce.length != 24 then .error (jstr "Nonce must be 24 bytes")
  else
    match xchachaDecrypt key nonce ciphertext with
    | some ptBytes => .ok (textDecode ptBytes)
    | none => .error (jstr "Decryption failed: invalid key or tampered data")

/-! ## SHA-256 (node:crypto `createHash("sha256")`) -/

/-- 32-bit right rotation. -/
def rotr32 (x n : Nat) : Nat := x / 2 ^ n ||| (x * 2 ^ (32 - n)) % 4294967296

/-- SHA-256 small sigma 0. -/
def ssig0 (x : Nat) : Nat := rotr32 x 7 ^^^ rotr32 x 18 ^^^ x / 2 ^ 3

/-- SHA-256 small sigma 1. -/
def ssig1 (x : Nat) : Nat := rotr32 x 17 ^^^ rotr32 x 19 ^^^ x / 2 ^ 10

/-- SHA-256 big sigma 0. -/
def bsig0 (x : Nat) : Nat := rotr32 x 2 ^^^ rotr32 x 13 ^^^ rotr32 x 22

/-- SHA-256 big sigma 1. -/
def bsig1 (x : Nat) : Nat := rotr32 x 6 ^^^ rotr32 x 11 ^^^ rotr32 x 25

/-- SHA-256 choice function. -/
def shaCh (e f g : Nat) : Nat := e &&& f ^^^ (e ^^^ 4294967295) &&& g

/-- SHA-256 majority function. -/
def shaMaj (a b c : Nat) : Nat := a &&& b ^^^ a &&& c ^^^ b &&& c

/-- The SHA-256 round constants. -/
def shaK : List Nat :=
  [1116352408, 1899447441, 3049323471, 3921009573, 961987163,
   1508970993, 2453635748, 2870763221, 3624381080, 310598401,
   607225278, 1426881987, 1925078388, 2162078206, 2614888103,
   3248222580, 3835390401, 4022224774, 264347078, 604807628,
   770255983, 1249150122, 1555081692, 1996064986, 2554220882,
   2821834349, 2952996808, 3210313671, 3336571891, 3584528711,
   113926993, 338241895, 666307205, 773529912, 1294757372,
   1396182291, 1695183700, 1986661051, 2177026350, 2456956037,
   2730485921, 2820302411, 3259730800, 3345764771, 3516065817,
   3600352804, 4094571909, 275423344, 430227734, 506948616,
   659060556, 883997877, 958139571, 1322822218, 1537002063,
   1747873779, 1955562222, 2024104815, 2227730452, 2361852424,
   2428436474, 2756734187, 3204031479, 3329325298]

/-- Big-endian 32-bit word `i` of a byte buffer. -/
def be32Word (b : List Nat) (i : Nat) : Nat :=
  byteAt b (4 * i) * 16777216 + byteAt b (4 * i + 1) * 65536 +
    byteAt b (4 * i + 2) * 256 + byteAt b (4 * i + 3)

/-- Big-endian bytes of a 32-bit word. -/
def be32Bytes (w : Nat) : List Nat :=
  [w / 16777216 % 256, w / 65536 % 256, w / 256 % 256, w % 256]

/-- Extend a SHA-256 message schedule by one word. -/
def shaExtendStep (w : List Nat) : List Nat :=
  w ++ [(ssig1 (w.getD (w.length - 2) 0) + w.getD (w.length - 7) 0 +
    ssig0 (w.getD (w.length - 15) 0) + w.getD (w.length - 16) 0) % 4294967296]

/-- The 64-word message schedule of a 64-byte block. -/
def shaSchedule (block : List Nat) : List Nat :=
  shaExtendStep^[48] ((List.range 16).map (be32Word block))

/-- The eight SHA-256 working variables. -/
structure ShaSt where
  a : Nat
  b : Nat
  c : Nat
  d : Nat
  e : Nat
  f : Nat
  g : Nat
  h : Nat

/-- One SHA-256 compression round. -/
def shaRound (st : ShaSt) (kw : Nat × Nat) : ShaSt :=
  let t1 := (st.h + bsig1 st.e + shaCh st.e st.f st.g + kw.1 + kw.2) % 4294967296
  let t2 := (bsig0 st.a + shaMaj st.a st.b st.c) % 4294967296
  ⟨(t1 + t2) % 4294967296, st.a, st.b, st.c, (st.d + t1) % 4294967296,
    st.e, st.f, st.g⟩

/-- Compress one 64-byte block into the state. -/
def shaCompress (st : ShaSt) (block : List Nat) : ShaSt :=
  let fin := (shaK.zip (shaSchedule block)).foldl shaRound st
  ⟨(st.a + fin.a) % 4294967296, (st.b + fin.b) % 4294967296,
    (st.c + fin.c) % 4294967296, (st.d + fin.d) % 4294967296,
    (st.e + fin.e) % 4294967296, (st.f + fin.f) % 4294967296,
    (st.g + fin.g) % 4294967296, (st.h + fin.h) % 4294967296⟩

/-- Fuelled iteration of the compression function over 64-byte blocks. -/
def shaBlocksF : Nat → ShaSt → List Nat → ShaSt
  | 0, st, _ => st
  | _ + 1, st, [] => st
  | fl + 1, st, m :: ms =>
    shaBlocksF fl (shaCompress st ((m :: ms).take 64)) (ms.drop 63)

/-- Big-endian bytes of a number, `n` bytes wide. -/
def beBytes (n x : Nat) : List Nat :=
  (List.range n).map (fun i => x / 256 ^ (n - 1 - i) % 256)

/-- SHA-256 message padding. -/
def shaPad (msg : List Nat) : List Nat :=
  msg ++ 0x80 :: List.replicate ((120 - (msg.length + 1) % 64) % 64) 0 ++
    beBytes 8 (msg.length * 8)

/-- The SHA-256 initial state. -/
def shaInit : ShaSt :=
  ⟨1779033703, 3144134277, 1013904242, 2773480762,
    1359893119, 2600822924, 528734635, 1541459225⟩

/-- The SHA-256 digest (32 bytes) of a byte buffer. -/
def sha256 (msg : List Nat) : List Nat :=
  let p := shaPad msg
  let st := shaBlocksF p.length shaInit p
  be32Bytes st.a ++ be32Bytes st.b ++ be32Bytes st.c ++ be32Bytes st.d ++
    be32Bytes st.e ++ be32Bytes st.f ++ be32Bytes st.g ++ be32Bytes st.h

/-- Lower-case hexadecimal digit character code. -/
def hexDigit (n : Nat) : Nat := if n < 10 then 48 + n else 87 + n

/-- Two hex character codes of one byte. -/
def hexByte (b : Nat) : List Nat := [hexDigit (b / 16), hexDigit (b % 16)]

/-- `createHash("sha256").update(bytes).digest("hex")`. -/
def sha256Hex (msg : List Nat) : JSStr := (sha256 msg).flatMap hexByte

/-! ## JSON rendering (`JSON.stringify(x, null, 2)`) -/

/-- JSON escape of one character. -/
def jsonEscapeChar (c : Nat) : List Nat :=
  if c == 34 then [92, 34]
  else if c == 92 then [92, 92]
  else if c == 8 then [92, 98]
  else if c == 9 then [92, 116]
  else if c == 10 then [92, 110]
  else if c == 12 then [92, 102]
  else if c == 13 then [92, 114]
  else if c < 32 then [92, 117, 48, 48, hexDigit (c / 16), hexDigit (c % 16)]
  else [c]

/-- A JSON string literal. -/
def jsonStr (s : JSStr) : JSStr := 34 :: (s.flatMap jsonEscapeChar ++ [34])

/-- Decimal rendering of a natural number. -/
def natStr (n : Nat) : JSStr := jstr (Nat.repr n)

/-- Join strings with a separator. -/
def joinStr (sep : JSStr) : List JSStr → JSStr
  | [] => []
  | [x] => x
  | x :: xs => x ++ sep ++ joinStr sep xs

/-- A JSON string or `null` for a nullable field. -/
def jsonNullable (o : Option JSStr) : JSStr :=
  match o with
  | some s => jsonStr s
  | none => jstr "null"

/-- A JSON boolean. -/
def jsonBool (b : Bool) : JSStr := if b then jstr "true" else jstr "false"

/-- A JSON array of numbers at nesting depth one, two-space indent. -/
def jsonNumArray (ns : List Nat) : JSStr :=
  match ns with
  | [] => jstr "[]"
  | _ =>
    jstr "[\n" ++ joinStr (jstr ",\n") (ns.map (fun n => jstr "    " ++ natStr n)) ++
      jstr "\n  ]"

/-- A top-level JSON object with pre-rendered field values, two-space indent. -/
def jsonObj (fields : List (JSStr × JSStr)) : JSStr :=
  jstr "\x7b\n" ++
    joinStr (jstr ",\n")
      (fields.map (fun kv => jstr "  " ++ jsonStr kv.1 ++ jstr ": " ++ kv.2)) ++
    jstr "\n\x7d"

/-! ## Data model (src/lib/storage/types.ts) -/

/-- One evidence ("footprint") record as stored in SQLite. -/
structure Evidence where
  id : JSStr
  timestamp : JSStr
  conversationId : Option JSStr
  llmProvider : Option JSStr
  encryptedContent : List Nat
  nonce : List Nat
  contentHash : JSStr
  messageCount : Nat
  gitCommitHash : Option JSStr
  gitTimestamp : Option JSStr
  tags : Option JSStr
  createdAt : JSStr
  updatedAt : JSStr
deriving DecidableEq

/-- The state of the `evidences` table. -/
abbrev Store := List Evidence

/-- JS truthiness of a nullable string (`null` and `""` are falsy). -/
def truthy (o : Option JSStr) : Bool :=
  match o with
  | none => false
  | some s => s != []

/-! ## Record store (src/lib/storage/database.ts) -/

/-- `SELECT * FROM evidences WHERE id = ?` (id is the primary key). -/
def findById (store : Store) (id : JSStr) : Option Evidence :=
  store.find? (fun r => r.id == id)

/-- Insert into a sorted list (helper of `sortBy`). -/
def insertBy {α : Type} (le : α → α → Bool) (x : α) : List α → List α
  | [] => [x]
  | y :: ys => if le x y then x :: y :: ys else y :: insertBy le x ys

/-- Stable insertion sort, the model of SQL `ORDER BY`. -/
def sortBy {α : Type} (le : α → α → Bool) : List α → List α
  | [] => []
  | x :: xs => insertBy le x (sortBy le xs)

/-- `ORDER BY timestamp DESC` (SQLite binary text collation). -/
def sortByTimestampDesc (store : Store) : Store :=
  sortBy (fun a b => lexLe b.timestamp a.timestamp) store

/-- SQL `LIMIT ? OFFSET ?` as built by `list`/`search`: the offset clause is
emitted only when positive, and a negative limit means unbounded. -/
def applyPage (rows : Store) (limit : Option Int) (offset : Int) : Store :=
  match limit with
  | some l =>
    let page := if offset > 0 then rows.drop offset.toNat else rows
    if l < 0 then page else page.take l.toNat
  | none => if offset > 0 then rows.drop offset.toNat else rows

/-- `list(options)`: all rows ordered by timestamp descending, paginated. -/
def dbList (store : Store) (limit : Option Int) (offset : Option Int) : Store :=
  applyPage (sortByTimestampDesc store) limit (offset.getD 0)

/-- Options of `search` (src/lib/storage/database.ts). -/
structure SearchOpts where
  query : Option JSStr
  tags : Option (List JSStr)
  dateFrom : Option JSStr
  dateTo : Option JSStr
  limit : Option Int
  offset : Option Int

/-- `col LIKE pat` where the column is nullable (`NULL` never matches). -/
def likeOpt (o : Option JSStr) (pat : JSStr) : Bool :=
  match o with
  | some s => likeMatch pat s
  | none => false

/-- The four-pattern tag condition of `search`:
`tags LIKE 't,%' OR tags LIKE '%,t,%' OR tags LIKE '%,t' OR tags = 't'`. -/
def tagCond (stored : Option JSStr) (t : JSStr) : Bool :=
  likeOpt stored (t ++ [44, 37]) ||
  likeOpt stored ([37, 44] ++ t ++ [44, 37]) ||
  likeOpt stored ([37, 44] ++ t) ||
  (match stored with
   | some s => s == t
   | none => false)

/-- The WHERE clause built by `search` for one row. -/
def rowMatches (o : SearchOpts) (r : Evidence) : Bool :=
  (match o.query with
   | some q =>
     if trimStr q != [] then
       likeOpt r.conversationId ([37] ++ trimStr q ++ [37]) ||
         likeOpt r.tags ([37] ++ trimStr q ++ [37])
     else true
   | none => true) &&
  (match o.tags with
   | some ts =>
     if ts.length > 0 then ts.all (fun tag => tagCond r.tags (trimStr tag))
     else true
   | none => true) &&
  (match o.dateFrom with
   | some d => if d != [] then lexLe d r.timestamp else true
   | none => true) &&
  (match o.dateTo with
   | some d => if d != [] then lexLe r.timestamp d else true
   | none => true)

/-- `search(options)`: filter, order by timestamp descending, paginate. -/
def dbSearch (store : Store) (o : SearchOpts) : Store :=
  applyPage (sortByTimestampDesc (store.filter (rowMatches o))) o.limit (o.offset.getD 0)

/-- `UPDATE evidences SET tags = ?, updatedAt = ? WHERE id = ?`; the boolean is
`changes > 0`. -/
def dbUpdateTags (store : Store) (now : JSStr) (id : JSStr) (tags : Option JSStr) :
    Store × Bool :=
  (store.map (fun r => if r.id == id then { r with tags := tags, updatedAt := now } else r),
    store.any (fun r => r.id == id))

/-- `evidence.tags.split(',').map(t => t.trim()).filter(t => t)`. -/
def parseTags (s : JSStr) : List JSStr :=
  ((splitComma s).map trimStr).filter (fun t => t != [])

/-- `addTags(id, tags)`: merge with existing tags, deduplicated. -/
def dbAddTags (store : Store) (now : JSStr) (id : JSStr) (tags : List JSStr) :
    Except JSStr Store :=
  if tags.length == 0 then .error (jstr "Failed to add tags: Tags array cannot be empty")
  else
    let validTags := (tags.map trimStr).filter (fun t => t != [])
    if validTags.length == 0 then
      .error (jstr "Failed to add tags: All provided tags are empty or whitespace")
    else
      match findById store id with
      | none => .error (jstr "Failed to add tags: Evidence not found")
      | some evidence =>
        let existingTags :=
          match evidence.tags with
          | some s => parseTags s
          | none => []
        let mergedTags := jsDedup (existingTags ++ validTags)
        .ok (dbUpdateTags store now id (some (joinComma mergedTags))).1

/-- The comma-joined tag string written by `renameTag` for one record. -/
def renamedTags (oldTag newTag : JSStr) (s : JSStr) : JSStr :=
  joinComma (((splitComma s).map trimStr).map (fun t => if t == oldTag then newTag else t))

/-- The loop inside `renameTag`'s transaction.  `failAt` simulates a thrown
storage error just before the update of the given iteration. -/
def renameLoop (now oldTag newTag : JSStr) (failAt : Nat → Bool) :
    List Evidence → Store → Nat → Nat → Except JSStr (Store × Nat)
  | [], store, count, _ => .ok (store, count)
  | ev :: rest, store, count, idx =>
    if failAt idx then .error (jstr "simulated storage failure")
    else
      match ev.tags with
      | none => renameLoop now oldTag newTag failAt rest store count (idx + 1)
      | some s =>
        let upd := dbUpdateTags store now ev.id (some (renamedTags oldTag newTag s))
        renameLoop now oldTag newTag failAt rest upd.1
          (if upd.2 then count + 1 else count) (idx + 1)

/-- `renameTag(oldTag, newTag)`: the loop runs inside a SQLite transaction, so
an error rolls the store back to its initial state. -/
def dbRenameTag (store : Store) (now oldTag newTag : JSStr) (failAt : Nat → Bool) :
    Store × Except JSStr Nat :=
  match renameLoop now oldTag newTag failAt
      (dbSearch store ⟨none, some [oldTag], none, none, none, none⟩) store 0 0 with
  | .ok (store', count) => (store', .ok count)
  | .error e => (store, .error (jstr "Failed to rename tag: " ++ e))

/-- The loop inside `removeTag`'s transaction. -/
def removeLoop (now tag : JSStr) (failAt : Nat → Bool) :
    List Evidence → Store → Nat → Nat → Except JSStr (Store × Nat)
  | [], store, count, _ => .ok (store, count)
  | ev :: rest, store, count, idx =>
    if failAt idx then .error (jstr "simulated storage failure")
    else
      match ev.tags with
      | none => removeLoop now tag failAt rest store count (idx + 1)
      | some s =>
        let remaining := ((splitComma s).map trimStr).filter (fun t => t != tag)
        let newTags := if remaining.length > 0 then some (joinComma remaining) else none
        let upd := dbUpdateTags store now ev.id newTags
        removeLoop now tag failAt rest upd.1
          (if upd.2 then count + 1 else count) (idx + 1)

/-- `removeTag(tag)`: transactional, like `renameTag`. -/
def dbRemoveTag (store : Store) (now tag : JSStr) (failAt : Nat → Bool) :
    Store × Except JSStr Nat :=
  match removeLoop now tag failAt
      (dbSearch store ⟨none, some [tag], none, none, none, none⟩) store 0 0 with
  | .ok (store', count) => (store', .ok count)
  | .error e => (store, .error (jstr "Failed to remove tag: " ++ e))

/-! ## Export packager (src/lib/storage/export.ts, `evidences` variant) -/

/-- Content of one archive entry. -/
inductive FileData where
  | text (s : JSStr)
  | bytes (b : List Nat)
deriving DecidableEq

/-- Result of `exportEvidences`.  The ZIP byte serialisation itself is not
modelled; `files` are the entries added to the archive in order, and
`checksumEntries` is the `checksumEntries` array of the source. -/
structure ExportResult where
  filename : JSStr
  files : List (JSStr × FileData)
  checksumEntries : List JSStr
  evidenceCount : Nat
deriving DecidableEq

/-- `metadata.json` for one record (`JSON.stringify(metadata, null, 2)`). -/
def metadataJson (e : Evidence) : JSStr :=
  jsonObj [
    (jstr "id", jsonStr e.id),
    (jstr "timestamp", jsonStr e.timestamp),
    (jstr "conversationId", jsonNullable e.conversationId),
    (jstr "llmProvider", jsonNullable e.llmProvider),
    (jstr "contentHash", jsonStr e.contentHash),
    (jstr "messageCount", natStr e.messageCount),
    (jstr "tags", jsonNullable e.tags),
    (jstr "nonce", jsonNumArray e.nonce)]

/-- `git-info.json` for one record. -/
def gitInfoJson (e : Evidence) : JSStr :=
  jsonObj [
    (jstr "gitCommitHash", jsonNullable e.gitCommitHash),
    (jstr "gitTimestamp", jsonNullable e.gitTimestamp)]

/-- `manifest.json`. -/
def manifestJson (exportDate : JSStr) (count : Nat) (includeGitInfo : Bool) : JSStr :=
  jsonObj [
    (jstr "version", jsonStr (jstr "1.0.0")),
    (jstr "exportDate", jsonStr exportDate),
    (jstr "evidenceCount", natStr count),
    (jstr "includeGitInfo", jsonBool includeGitInfo)]

/-- The per-record folder `evidences/${id}`. -/
def evidenceFolder (e : Evidence) : JSStr := jstr "evidences/" ++ e.id

/-- Whether a `git-info.json` is emitted for this record. -/
def hasGitFile (includeGitInfo : Bool) (e : Evidence) : Bool :=
  includeGitInfo && truthy e.gitCommitHash && truthy e.gitTimestamp

/-- The archive entries added for one record. -/
def perRecordFiles (includeGitInfo : Bool) (e : Evidence) : List (JSStr × FileData) :=
  [(evidenceFolder e ++ jstr "/encrypted-data", .bytes e.encryptedContent),
   (evidenceFolder e ++ jstr "/metadata.json", .text (metadataJson e))] ++
  (if hasGitFile includeGitInfo e then
    [(evidenceFolder e ++ jstr "/git-info.json", .text (gitInfoJson e))]
  else [])

/-- The checksum lines pushed for one record (`hash ++ "  " ++ path`). -/
def perRecordChecksums (includeGitInfo : Bool) (e : Evidence) : List JSStr :=
  [sha256Hex e.encryptedContent ++ jstr "  " ++ evidenceFolder e ++ jstr "/encrypted-data",
   sha256Hex (utf8Encode (metadataJson e)) ++ jstr "  " ++ evidenceFolder e ++
     jstr "/metadata.json"] ++
  (if hasGitFile includeGitInfo e then
    [sha256Hex (utf8Encode (gitInfoJson e)) ++ jstr "  " ++ evidenceFolder e ++
      jstr "/git-info.json"]
  else [])

/-- The content of `checksum.txt`. -/
def checksumContent (entries : List JSStr) : JSStr :=
  joinStr (jstr "\n")
    ([jstr "SHA-256 Checksums", jstr "=================", jstr ""] ++ entries)

/-- `new Date().toISOString().split('T')[0]`. -/
def dateOfIso (s : JSStr) : JSStr := s.takeWhile (fun c => c != 84)

/-- Record selection of `exportEvidences`: validate ids when given, else all
records via `list()`. -/
def exportSelect (store : Store) (evidenceIds : Option (List JSStr)) :
    Except JSStr (List Evidence) :=
  match evidenceIds with
  | some ids =>
    let notFound := ids.filter (fun i => (findById store i).isNone)
    if notFound.length > 0 then
      .error (jstr "Evidence IDs not found: " ++ joinStr (jstr ", ") notFound)
    else .ok (ids.filterMap (findById store))
  | none => .ok (dbList store none none)

/-- `exportEvidences(db, options)`; `nowIso` is the current time in ISO form. -/
def exportEvidences (store : Store) (nowIso : JSStr)
    (evidenceIds : Option (List JSStr)) (includeGitInfo : Bool) :
    Except JSStr ExportResult :=
  match exportSelect store evidenceIds with
  | .error e => .error (jstr "Failed to export evidences: " ++ e)
  | .ok evidences =>
    let totalBytes := (evidences.map (fun e => e.encryptedContent.length)).sum
    if totalBytes > 100 * 1024 * 1024 then
      .error (jstr "Failed to export evidences: Export size exceeds limit (100MB). Please export in smaller batches using the evidenceIds parameter.")
    else
      let entries := evidences.flatMap (perRecordChecksums includeGitInfo)
      .ok
        { filename := jstr "evidence-export-" ++ dateOfIso nowIso ++ jstr ".zip"
          files :=
            (jstr "manifest.json",
              .text (manifestJson nowIso evidences.length includeGitInfo)) ::
            (evidences.flatMap (perRecordFiles includeGitInfo) ++
              [(jstr "checksum.txt", .text (checksumContent entries))])
          checksumEntries := entries
          evidenceCount := evidences.length }

/-! ## Key derivation (src/lib/crypto/key-derivation.ts) -/

/-- Argon2 parameter set (src/lib/crypto/types.ts). -/
structure KeyDerivationParams where
  memory : Nat
  iterations : Nat
  parallelism : Nat
  keyLength : Nat
deriving DecidableEq

/-- `DEFAULT_KDF_PARAMS` (OWASP defaults). -/
def DEFAULT_KDF_PARAMS : KeyDerivationParams := ⟨65536, 3, 4, 32⟩

/-- A partial parameter override, as in `Partial<KeyDerivationParams>`. -/
structure KDFOverrides where
  memory : Option Nat
  iterations : Option Nat
  parallelism : Option Nat
  keyLength : Option Nat

/-- The empty override (`{}`, the default argument). -/
def noOverrides : KDFOverrides := ⟨none, none, none, none⟩

/-- `{ ...DEFAULT_KDF_PARAMS, ...params }`. -/
def mergeParams (p : KDFOverrides) : KeyDerivationParams :=
  ⟨p.memory.getD DEFAULT_KDF_PARAMS.memory,
   p.iterations.getD DEFAULT_KDF_PARAMS.iterations,
   p.parallelism.getD DEFAULT_KDF_PARAMS.parallelism,
   p.keyLength.getD DEFAULT_KDF_PARAMS.keyLength⟩

/-- Key/salt pair returned by key derivation. -/
structure DerivedKey where
  key : List Nat
  salt : List Nat
deriving DecidableEq

/-- `rederiveKey(password, salt, params)`.  The external noble-hashes
`argon2id` function is passed as an explicit parameter; `rederiveKey` itself
draws no randomness. -/
def rederiveKey (argon2id : JSStr → List Nat → KeyDerivationParams → List Nat)
    (password : JSStr) (salt : List Nat) (params : KDFOverrides) :
    Except JSStr DerivedKey :=
  if password == [] then .error (jstr "Password cannot be empty")
  else
    let kdfParams := mergeParams params
    if salt.length != 16 then .error (jstr "Salt must be 16 bytes")
    else .ok ⟨argon2id password salt kdfParams, salt⟩

/-! ## Tool handlers (src/tools) -/

/-- An MCP tool response: display text plus structured content. -/
structure ToolResponse (α : Type) where
  text : JSStr
  structured : α
deriving DecidableEq

/-- `wrapToolHandler`: rethrow any error with tool name and suggested action. -/
def wrapToolHandler (toolName suggestedAction : JSStr) (r : Except JSStr α) :
    Except JSStr α :=
  match r with
  | .ok v => .ok v
  | .error e =>
    .error (jstr "[Tool: " ++ toolName ++ jstr "] " ++ e ++
      jstr ". Suggested action: " ++ suggestedAction)

/-- The per-record summary returned by list/search tools. -/
structure FootprintSummary where
  id : JSStr
  timestamp : JSStr
  conversationId : Option JSStr
  llmProvider : Option JSStr
  messageCount : Nat
  tags : Option JSStr
deriving DecidableEq

/-- Structured content of `list-footprints`. -/
structure ListFootprintsResult where
  footprints : List FootprintSummary
  total : Nat
deriving DecidableEq

/-- Decimal rendering of an integer. -/
def intStr (i : Int) : JSStr := jstr i.repr

/-- src/tools/list-footprints.ts `createListFootprintsHandler`. -/
def listFootprintsHandler (store : Store) (limit offset : Option Int) :
    Except JSStr (ToolResponse ListFootprintsResult) :=
  wrapToolHandler (jstr "list-footprints")
    (jstr "Ensure limit is positive and offset is non-negative.")
    (if (match limit with
         | some l => decide (l ≤ 0)
         | none => false) then
      .error (jstr "Limit must be positive")
    else if (match offset with
         | some o => decide (o < 0)
         | none => false) then
      .error (jstr "Offset cannot be negative")
    else
      let footprints := dbList store limit offset
      let mapped := footprints.map (fun fp =>
        (⟨fp.id, fp.timestamp, fp.conversationId, fp.llmProvider,
          fp.messageCount, fp.tags⟩ : FootprintSummary))
      .ok ⟨jstr "✅ Footprint list retrieved successfully",
        ⟨mapped, footprints.length⟩⟩)

/-- Structured content of `verify-footprint` (`checks.contentIntegrity`). -/
structure ContentIntegrity where
  passed : Bool
  hash : JSStr
deriving DecidableEq

/-- `checks.gitTimestamp`. -/
structure GitTimestampCheck where
  passed : Bool
  commitHash : Option JSStr
  timestamp : Option JSStr
deriving DecidableEq

/-- `checks.encryptionStatus`. -/
structure EncryptionStatus where
  passed : Bool
  algorithm : JSStr
deriving DecidableEq

/-- The three checks of `verify-footprint`. -/
structure VerifyChecks where
  contentIntegrity : ContentIntegrity
  gitTimestamp : GitTimestampCheck
  encryptionStatus : EncryptionStatus
deriving DecidableEq

/-- Structured content of `verify-footprint`. -/
structure VerifyFootprintResult where
  id : JSStr
  verified : Bool
  checks : VerifyChecks
  legalReadiness : Bool
  verifiedAt : JSStr
deriving DecidableEq

/-- src/tools/verify-footprint.ts `createVerifyFootprintHandler`.  The derived
key and the clock are passed explicitly; the display text is abbreviated. -/
def verifyFootprintHandler (store : Store) (key : List Nat) (now : JSStr)
    (id : JSStr) : Except JSStr (ToolResponse VerifyFootprintResult) :=
  wrapToolHandler (jstr "verify-footprint")
    (jstr "Verify the footprint ID exists and encryption password is correct.")
    (match findById store id with
     | none => .error (jstr "Footprint with ID " ++ id ++ jstr " not found")
     | some fp =>
       let dec := decrypt fp.encryptedContent fp.nonce key
       let ci : ContentIntegrity × Bool :=
         match dec with
         | .ok content =>
           let computedHash := sha256Hex (utf8Encode content)
           (⟨computedHash == fp.contentHash, computedHash⟩, true)
         | .error _ => (⟨false, jstr ""⟩, false)
       let gitPassed := truthy fp.gitCommitHash && truthy fp.gitTimestamp
       let verified := ci.1.passed && gitPassed && ci.2
       .ok ⟨(if verified then jstr "✅ Footprint verified successfully"
             else jstr "❌ Footprint verification failed"),
         ⟨id, verified,
           ⟨ci.1, ⟨gitPassed, fp.gitCommitHash, fp.gitTimestamp⟩,
             ⟨ci.2, jstr "XChaCha20-Poly1305"⟩⟩,
           verified, now⟩⟩)

/-- The path part of a checksum line (after the 64 hash characters and two
spaces). -/
def checksumPathOf (entry : JSStr) : JSStr := entry.drop 66

/-- A tag token that the LIKE-based filter can match exactly: non-empty, no
comma (the list separator), no `%` or `_` (LIKE wildcards), no upper-case
ASCII letter (LIKE folds case) and no whitespace (`trim` would change it). -/
def cleanTok (t : JSStr) : Prop :=
  t ≠ [] ∧ ∀ c ∈ t, c ≠ 44 ∧ c ≠ 37 ∧ c ≠ 95 ∧ likeFold c = c ∧ jsSpace c = false

instance (t : JSStr) : Decidable (cleanTok t) := by
  unfold cleanTok; infer_instance

/-- The token list of a stored delimited tag string (`split(',')`). -/
def tagTokens (o : Option JSStr) : List JSStr :=
  match o with
  | some s => splitComma s
  | none => []

/-- A normalized store: every record's tag field is either null or the
comma-join of a non-empty list of clean tokens. -/
def normalizedTags (store : Store) : Prop :=
  ∀ r ∈ store, r.tags = none ∨
    ∃ toks, toks ≠ [] ∧ (∀ u ∈ toks, cleanTok u) ∧ r.tags = some (joinComma toks)

/-- The record update written by `renameTag` for a record whose stored tag
string is `s`. -/
def renameUpd (now oldTag newTag : JSStr) (s : JSStr) (r : Evidence) : Evidence :=
  { r with tags := some (renamedTags oldTag newTag s), updatedAt := now }

/-- The cumulative effect of `renameTag`'s loop over the matched records on
one record of the store. -/
def renameApply (now oldTag newTag : JSStr) (evs : List Evidence) (r : Evidence) :
    Evidence :=
  match evs.find? (fun e => e.id == r.id) with
  | some e =>
    match e.tags with
    | some s => renameUpd now oldTag newTag s r
    | none => r
  | none => r

/-! ## Concrete demonstration data -/

/-- A fixed clock value for concrete runs. -/
def demoNow : JSStr := jstr "2026-10-11T00:00:00.000Z"

/-- A concrete 32-byte key. -/
def demoKey : List Nat := List.range 32

/-- A concrete 24-byte nonce. -/
def demoRand : List Nat := List.range 24

/-- A concrete record. -/
def demoEvA : Evidence :=
  { id := jstr "a", timestamp := jstr "2024-01-02T00:00:00.000Z",
    conversationId := some (jstr "conv-a"), llmProvider := some (jstr "prov"),
    encryptedContent := [1, 2, 3], nonce := List.range 24,
    contentHash := jstr "00", messageCount := 2,
    gitCommitHash := none, gitTimestamp := none,
    tags := some (jstr "alpha,beta"),
    createdAt := jstr "2024-01-02T00:00:00.000Z",
    updatedAt := jstr "2024-01-02T00:00:00.000Z" }

/-- Another concrete record. -/
def demoEvB : Evidence :=
  { demoEvA with
    id := jstr "b"
    timestamp := jstr "2024-01-01T00:00:00.000Z"
    encryptedContent := [4, 5]
    tags := some (jstr "alpha") }

/-- A concrete two-record store. -/
def demoStore : Store := [demoEvA, demoEvB]

/-- A record that carries git information, so an export with
`includeGitInfo = true` emits a `git-info.json` for it. -/
def demoEvG : Evidence :=
  { demoEvB with
    id := jstr "c"
    gitCommitHash := some (jstr "deadbeef")
    gitTimestamp := some (jstr "2024-01-01T00:00:00.000Z") }

/-- A two-record store whose second record carries git information. -/
def demoStoreG : Store := [demoEvA, demoEvG]

/-- A record whose ciphertext is too short to carry an authentication tag, so
decryption fails. -/
def demoBadEv : Evidence :=
  { demoEvA with encryptedContent := [] }

/-- A store containing only `demoBadEv`. -/
def demoBadStore : Store := [demoBadEv]

/-- The response of `list-footprints` on the demo store with limit 1. -/
def demoListResp : ToolResponse ListFootprintsResult :=
  match listFootprintsHandler demoStore (some 1) (some 0) with
  | .ok r => r
  | .error _ => ⟨[], [], 0⟩

/-- A stand-in for the external `argon2id` function in concrete runs. -/
def demoArgon : JSStr → List Nat → KeyDerivationParams → List Nat :=
  fun _ _ pr => List.replicate pr.keyLength 7

/-- A one-record store whose record carries both tags `a` and `b`, used to
show that `renameTag("a", "b")` produces the duplicated tag list `b,b`. -/
def demoStoreC3 : Store :=
  [{ demoEvA with id := jstr "r1", tags := some (jstr "a,b") }]

/-- A record whose only tag is `apigee`. -/
def demoEvApigee : Evidence :=
  { demoEvA with id := jstr "g", tags := some (jstr "apigee") }

/-- A store containing only the `apigee`-tagged record. -/
def demoStoreApigee : Store := [demoEvApigee]

/-- A record tagged `x,y` for the rename-atomicity runs. -/
def demoEvR1 : Evidence :=
  { demoEvA with id := jstr "r1", tags := some (jstr "x,y") }

/-- A record tagged `x` for the rename-atomicity runs. -/
def demoEvR2 : Evidence :=
  { demoEvA with
    id := jstr "r2"
    timestamp := jstr "2024-01-03T00:00:00.000Z"
    tags := some (jstr "x") }

/-- A two-record store in which both records carry tag `x`. -/
def demoRenameStore : Store := [demoEvR1, demoEvR2]

/-- A record whose stored tag string is `" x"` (leading space): its parsed
tag list contains `x`, but the raw token is `" x"`. -/
def demoEvR3 : Evidence :=
  { demoEvA with
    id := jstr "r3"
    tags := some (jstr " x") }

/-- The store after adding tags to record `a` of the demo store. -/
def demoAddStore : Store :=
  match dbAddTags demoStore demoNow (jstr "a") [jstr "beta", jstr "new"] with
  | .ok s => s
  | .error _ => []

/-- The export of records `a` and `b` from the demo store. -/
def demoExportAB : ExportResult :=
  match exportEvidences demoStore demoNow (some [jstr "a", jstr "b"]) false with
  | .ok r => r
  | .error _ => ⟨[], [], [], 0⟩

/-! ## Lemmas: sorting -/

theorem length_insertBy {α : Type} (le : α → α → Bool) (x : α) (l : List α) :
    (insertBy le x l).length = l.length + 1 := by
  induction l with
  | nil => rfl
  | cons y ys ih =>
    rw [insertBy]
    split
    · simp
    · simp [ih]

theorem insertBy_perm {α : Type} (le : α → α → Bool) (x : α) (l : List α) :
    (insertBy le x l).Perm (x :: l) := by
  induction l with
  | nil => exact List.Perm.refl _
  | cons y ys ih =>
    rw [insertBy]
    split
    · exact List.Perm.refl _
    · exact ((ih.cons y).trans (List.Perm.swap x y ys))

theorem sortBy_perm {α : Type} (le : α → α → Bool) (l : List α) :
    (sortBy le l).Perm l := by
  induction l with
  | nil => exact List.Perm.refl _
  | cons x xs ih => exact (insertBy_perm le x (sortBy le xs)).trans (ih.cons x)

theorem length_sortBy {α : Type} (le : α → α → Bool) (l : List α) :
    (sortBy le l).length = l.length :=
  (sortBy_perm le l).length_eq

theorem mem_sortBy {α : Type} (le : α → α → Bool) (x : α) (l : List α) :
    x ∈ sortBy le l ↔ x ∈ l :=
  (sortBy_perm le l).mem_iff

/-! ## Lemmas: AEAD round trip -/

theorem length_le32Bytes (w : Nat) : (le32Bytes w).length = 4 := rfl

theorem length_chachaBlock (k : List Nat) (c : Nat) (n : List Nat) :
    (chachaBlock k c n).length = 64 := by
  simp [chachaBlock, serializeSt, le32Bytes]

theorem length_flatten_blocks (k n : List Nat) (c m : Nat) :
    (((List.range m).map (fun i => chachaBlock k (c + i) n)).flatten).length = 64 * m := by
  induction m with
  | zero => simp
  | succ m ih =>
    rw [List.range_succ, List.map_append, List.flatten_append, List.length_append, ih]
    simp [length_chachaBlock]
    omega

theorem length_chachaKeystream (k n : List Nat) (c len : Nat) :
    (chachaKeystream k n c len).length = len := by
  rw [chachaKeystream, List.length_take, length_flatten_blocks]
  omega

theorem zipWith_xor_cancel (pt ks : List Nat) (h : pt.length ≤ ks.length) :
    List.zipWith (fun a b => a ^^^ b)
      (List.zipWith (fun a b => a ^^^ b) pt ks) ks = pt := by
  induction pt generalizing ks with
  | nil => simp
  | cons a t ih =>
    cases ks with
    | nil => simp at h
    | cons b kt =>
      simp only [List.zipWith, List.cons.injEq]
      refine ⟨?_, ih kt (by simpa using h)⟩
      rw [Nat.xor_assoc, Nat.xor_self, Nat.xor_zero]

theorem length_leBytes (n x : Nat) : (leBytes n x).length = n := by simp [leBytes]

theorem length_aeadTag (key nonce ct : List Nat) : (aeadTag key nonce ct).length = 16 := by
  simp [aeadTag, poly1305, length_leBytes]

/-- Sealing then opening with the same key and nonce recovers the plaintext
bytes. -/
theorem xchacha_roundtrip (key nonce pt : List Nat) :
    xchachaDecrypt key nonce (xchachaEncrypt key nonce pt) = some pt := by
  have hks := length_chachaKeystream (xchachaSub key nonce) (xchachaNonce nonce) 1 pt.length
  rw [xchachaEncrypt, xchachaDecrypt]
  set sub := xchachaSub key nonce
  set n := xchachaNonce nonce
  set ks := chachaKeystream sub n 1 pt.length with hksdef
  set ct := List.zipWith (fun a b => a ^^^ b) pt ks with hctdef
  have hct : ct.length = pt.length := by
    rw [hctdef, List.length_zipWith, hks, Nat.min_self]
  have htag : (aeadTag sub n ct).length = 16 := length_aeadTag sub n ct
  have hlen : (ct ++ aeadTag sub n ct).length = ct.length + 16 := by
    rw [List.length_append, htag]
  rw [if_neg (by omega)]
  have htake : (ct ++ aeadTag sub n ct).take ((ct ++ aeadTag sub n ct).length - 16) = ct := by
    rw [hlen, Nat.add_sub_cancel, List.take_left]
  have hdrop : (ct ++ aeadTag sub n ct).drop ((ct ++ aeadTag sub n ct).length - 16) =
      aeadTag sub n ct := by
    rw [hlen, Nat.add_sub_cancel, List.drop_left]
  rw [htake, hdrop, if_pos (by simp), hct, ← hksdef, hctdef,
    zipWith_xor_cancel pt ks (by omega)]

/-! ## Lemmas: UTF-8 round trip -/

theorem utf8EncodeCp_ne_nil (v : Nat) : utf8EncodeCp v ≠ [] := by
  unfold utf8EncodeCp
  split_ifs <;> simp

theorem utf8DecodeOne_encodeCp (v : Nat) (hv : validScalar v) (rest : List Nat) :
    utf8DecodeOne (utf8EncodeCp v ++ rest) = some (v, rest) := by
  obtain ⟨hlt, hsur⟩ := hv
  unfold utf8EncodeCp
  split_ifs with h1 h2 h3
  · simp only [List.cons_append, List.nil_append, utf8DecodeOne]
    rw [if_pos h1]
  · simp only [List.cons_append, List.nil_append, utf8DecodeOne]
    rw [if_neg (by omega), if_neg (by omega), if_pos (by omega)]
    simp only [utf8Cont2]
    rw [if_pos (by omega)]
    simp only [Option.some.injEq, Prod.mk.injEq]
    exact ⟨by omega, trivial⟩
  · simp only [List.cons_append, List.nil_append, utf8DecodeOne]
    rw [if_neg (by omega), if_neg (by omega), if_neg (by omega), if_pos (by omega)]
    simp only [utf8Cont3]
    rw [if_pos (by omega), if_pos (by omega)]
    simp only [Option.some.injEq, Prod.mk.injEq]
    exact ⟨by omega, trivial⟩
  · simp only [List.cons_append, List.nil_append, utf8DecodeOne]
    rw [if_neg (by omega), if_neg (by omega), if_neg (by omega), if_neg (by omega),
      if_pos (by omega)]
    simp only [utf8Cont4]
    rw [if_pos (by omega), if_pos (by omega)]
    simp only [Option.some.injEq, Prod.mk.injEq]
    exact ⟨by omega, trivial⟩

theorem utf8DecodeF_cons (f : Nat) (b : Nat) (bs : List Nat) :
    utf8DecodeF (f + 1) (b :: bs) =
      match utf8DecodeOne (b :: bs) with
      | some (v, rest) => v :: utf8DecodeF f rest
      | none => 0xFFFD :: utf8DecodeF f bs := rfl

theorem utf8DecodeF_encode (s : JSStr) (hval : ∀ v ∈ s, validScalar v) :
    ∀ f, (utf8Encode s).length ≤ f → utf8DecodeF f (utf8Encode s) = s := by
  induction s with
  | nil => intro f _; cases f <;> rfl
  | cons v t ih =>
    intro f hf
    have hne : utf8Encode (v :: t) = utf8EncodeCp v ++ utf8Encode t := by
      simp [utf8Encode]
    have hnnil := utf8EncodeCp_ne_nil v
    have hlen : 1 ≤ (utf8EncodeCp v).length := by
      cases hcp : utf8EncodeCp v with
      | nil => exact absurd hcp hnnil
      | cons a l => simp
    rw [hne] at hf ⊢
    rw [List.length_append] at hf
    obtain ⟨f', rfl⟩ : ∃ f', f = f' + 1 := ⟨f - 1, by omega⟩
    cases hcp : utf8EncodeCp v with
    | nil => exact absurd hcp hnnil
    | cons a l =>
      rw [hcp] at hf
      have hdec := utf8DecodeOne_encodeCp v (hval v (by simp)) (utf8Encode t)
      rw [hcp] at hdec
      rw [List.cons_append, utf8DecodeF_cons, ← List.cons_append, hdec]
      have hrec := ih (fun u hu => hval u (by simp [hu])) f' (by simp at hf ⊢; omega)
      show v :: utf8DecodeF f' (utf8Encode t) = v :: t
      rw [hrec]

/-- Decoding the UTF-8 encoding of a string of scalar values gives it back. -/
theorem utf8Decode_encode (s : JSStr) (hval : ∀ v ∈ s, validScalar v) :
    utf8Decode (utf8Encode s) = s :=
  utf8DecodeF_encode s hval _ le_rfl

/-- The UTF-8 encoding of a string not starting with U+FEFF never starts with
the byte order mark bytes. -/
theorem utf8Encode_no_bom (s : JSStr) (hval : ∀ v ∈ s, validScalar v)
    (hbom : s.head? ≠ some 0xFEFF) :
    strStarts [0xEF, 0xBB, 0xBF] (utf8Encode s) = false := by
  cases s with
  | nil => rfl
  | cons v t =>
    have hv := hval v (by simp)
    have hne : v ≠ 0xFEFF := by
      intro h; exact hbom (by simp [h])
    have henc : utf8Encode (v :: t) = utf8EncodeCp v ++ utf8Encode t := by
      simp [utf8Encode]
    rw [henc]
    obtain ⟨hlt, _⟩ := hv
    unfold utf8EncodeCp
    split_ifs with h1 h2 h3
    · simp only [List.cons_append, List.nil_append, strStarts]
      have h : (0xEF == v) = false := by
        simp only [beq_eq_false_iff_ne, ne_eq]; omega
      rw [h, Bool.false_and]
    · simp only [List.cons_append, List.nil_append, strStarts]
      have h : (0xEF == 0xC0 + v / 64) = false := by
        simp only [beq_eq_false_iff_ne, ne_eq]; omega
      rw [h, Bool.false_and]
    · simp only [List.cons_append, List.nil_append, strStarts]
      by_cases hb0 : (0xEF : Nat) = 0xE0 + v / 4096
      · by_cases hb1 : (0xBB : Nat) = 0x80 + v / 64 % 64
        · have h : (0xBF == 0x80 + v % 64) = false := by
            simp only [beq_eq_false_iff_ne, ne_eq]; omega
          rw [h]
          simp
        · have h : (0xBB == 0x80 + v / 64 % 64) = false := by
            simp only [beq_eq_false_iff_ne, ne_eq]; exact hb1
          rw [h]
          simp
      · have h : (0xEF == 0xE0 + v / 4096) = false := by
          simp only [beq_eq_false_iff_ne, ne_eq]; exact hb0
        rw [h, Bool.false_and]
    · simp only [List.cons_append, List.nil_append, strStarts]
      have h : (0xEF == 0xF0 + v / 262144) = false := by
        simp only [beq_eq_false_iff_ne, ne_eq]; omega
      rw [h, Bool.false_and]

/-- Decrypting the bytes produced by sealing recovers the sent string, as long
as it does not start with a byte order mark (which `TextDecoder` strips). -/
theorem decrypt_encrypt (p : JSStr) (key rand : List Nat)
    (hkey : key.length = 32) (hrand : rand.length = 24)
    (hval : ∀ v ∈ p, validScalar v) (hbom : p.head? ≠ some 0xFEFF) :
    (encrypt p key rand).bind (fun ed => decrypt ed.ciphertext ed.nonce key) =
      .ok p := by
  rw [encrypt, if_neg (by simp [hkey])]
  rw [Except.bind]
  simp only
  rw [decrypt, if_neg (by simp [hkey]), if_neg (by simp [hrand]),
    xchacha_roundtrip]
  unfold textDecode
  simp only [utf8Encode_no_bom p hval hbom, if_neg Bool.false_ne_true]
  rw [utf8Decode_encode p hval]

example : likeMatch (jstr "a%") (jstr "Abc") = true := by decide
example : likeMatch (jstr "api,%") (jstr "apigee") = false := by decide
example : likeMatch (jstr "%,api,%") (jstr "x,api,y") = true := by decide
example : likeMatch (jstr "_,%") (jstr "a,b") = true := by decide
example : splitComma (jstr "a,b") = [jstr "a", jstr "b"] := by decide
example : joinComma [jstr "a", jstr "b"] = jstr "a,b" := by decide
example : jsDedup [jstr "a", jstr "b", jstr "a"] = [jstr "a", jstr "b"] := by decide
example : trimStr (jstr "  ab ") = jstr "ab" := by decide

/-! ## Claim C6: key-derivation determinism -/

/-- C6: for every non-empty password and every 16-byte salt, `rederiveKey`
succeeds and the returned key is a function of the password, salt and
parameters alone (no randomness is drawn), so two calls with identical inputs
return bit-identical 32-byte keys. -/
theorem C6_rederive_deterministic
    (argon2id : JSStr → List Nat → KeyDerivationParams → List Nat)
    (hlen : ∀ pw s pr, (argon2id pw s pr).length = pr.keyLength)
    (password : JSStr) (salt : List Nat)
    (hpw : password ≠ []) (hsalt : salt.length = 16) :
    rederiveKey argon2id password salt noOverrides =
      .ok ⟨argon2id password salt DEFAULT_KDF_PARAMS, salt⟩ ∧
    (argon2id password salt DEFAULT_KDF_PARAMS).length = 32 := by
  constructor
  · rw [rederiveKey, if_neg (by simp [hpw]), if_neg (by simp [hsalt])]
    rfl
  · rw [hlen]
    rfl

/-- Witness for C6 at a concrete password, salt and argon2id stand-in. -/
theorem C6_rederive_deterministic_witness :
    (∀ pw s pr, (demoArgon pw s pr).length = pr.keyLength) ∧
    jstr "pw" ≠ [] ∧ (List.range 16).length = 16 ∧
    (rederiveKey demoArgon (jstr "pw") (List.range 16) noOverrides =
      .ok ⟨demoArgon (jstr "pw") (List.range 16) DEFAULT_KDF_PARAMS, List.range 16⟩ ∧
    (demoArgon (jstr "pw") (List.range 16) DEFAULT_KDF_PARAMS).length = 32) :=
  ⟨fun _ _ pr => by simp [demoArgon], by decide, by decide,
    C6_rederive_deterministic demoArgon (fun _ _ pr => by simp [demoArgon])
      (jstr "pw") (List.range 16) (by decide) (by decide)⟩

/-! ## Claim C8: list-footprints `total` is the page length -/

/-- C8: whenever `list-footprints` succeeds, its `total` field equals the
number of records in the returned (limit/offset-truncated) page, not the
number of records in the store. -/
theorem C8_list_total_is_page_length (store : Store) (limit offset : Option Int)
    (resp : ToolResponse ListFootprintsResult)
    (h : listFootprintsHandler store limit offset = .ok resp) :
    resp.structured.total = resp.structured.footprints.length := by
  unfold listFootprintsHandler wrapToolHandler at h
  split at h
  · rename_i v heq
    split at heq
    · exact absurd heq (by simp)
    · split at heq
      · exact absurd heq (by simp)
      · rw [Except.ok.injEq] at heq h
        rw [← h, ← heq]
        simp
  · exact absurd h (by simp)

/-- Witness for C8 on the demo store with limit 1 (the store has 2 records,
so `total = 1` is the page size, not the store size). -/
theorem C8_list_total_is_page_length_witness :
    listFootprintsHandler demoStore (some 1) (some 0) = .ok demoListResp ∧
    demoListResp.structured.total = demoListResp.structured.footprints.length ∧
    demoListResp.structured.total ≠ demoStore.length :=
  ⟨by decide,
    C8_list_total_is_page_length demoStore (some 1) (some 0) demoListResp (by decide),
    by decide⟩

/-! ## Claim C10: verify-footprint on a missing id raises a not-found error -/

/-- C10: for every id not present in the store, `verify-footprint` fails with
a wrapped not-found error instead of returning a structured verification
result. -/
theorem C10_verify_missing_id_errors (store : Store) (key : List Nat)
    (now id : JSStr) (h : findById store id = none) :
    verifyFootprintHandler store key now id =
      .error (jstr "[Tool: " ++ jstr "verify-footprint" ++ jstr "] " ++
        (jstr "Footprint with ID " ++ id ++ jstr " not found") ++
        jstr ". Suggested action: " ++
        jstr "Verify the footprint ID exists and encryption password is correct.") := by
  unfold verifyFootprintHandler wrapToolHandler
  rw [h]

/-- Witness for C10 on an empty store. -/
theorem C10_verify_missing_id_errors_witness :
    findById [] (jstr "nope") = none ∧
    verifyFootprintHandler [] demoKey demoNow (jstr "nope") =
      .error (jstr "[Tool: " ++ jstr "verify-footprint" ++ jstr "] " ++
        (jstr "Footprint with ID " ++ jstr "nope" ++ jstr " not found") ++
        jstr ". Suggested action: " ++
        jstr "Verify the footprint ID exists and encryption password is correct.") :=
  ⟨by decide, C10_verify_missing_id_errors [] demoKey demoNow (jstr "nope") (by decide)⟩

/-! ## Claim C7: verify-footprint on decryption failure -/

/-- C7: for every record present in the store whose decryption fails,
`verify-footprint` returns a structured (non-error) result in which the
content-integrity check is false, the computed hash is empty and the
decryption check is false. -/
theorem C7_verify_failure_shape (store : Store) (key : List Nat) (now id : JSStr)
    (fp : Evidence) (hfind : findById store id = some fp)
    (hdec : ∃ e, decrypt fp.encryptedContent fp.nonce key = .error e) :
    ∃ resp : ToolResponse VerifyFootprintResult,
      verifyFootprintHandler store key now id = .ok resp ∧
      resp.structured.checks.contentIntegrity.passed = false ∧
      resp.structured.checks.contentIntegrity.hash = jstr "" ∧
      resp.structured.checks.encryptionStatus.passed = false := by
  obtain ⟨e, he⟩ := hdec
  unfold verifyFootprintHandler wrapToolHandler
  rw [hfind]
  simp only [he]
  exact ⟨_, rfl, rfl, rfl, rfl⟩

/-- Witness for C7: a stored record whose ciphertext is too short to carry an
authentication tag. -/
theorem C7_verify_failure_shape_witness :
    findById demoBadStore (jstr "a") = some demoBadEv ∧
    (∃ e, decrypt demoBadEv.encryptedContent demoBadEv.nonce demoKey = .error e) ∧
    (∃ resp : ToolResponse VerifyFootprintResult,
      verifyFootprintHandler demoBadStore demoKey demoNow (jstr "a") = .ok resp ∧
      resp.structured.checks.contentIntegrity.passed = false ∧
      resp.structured.checks.contentIntegrity.hash = jstr "" ∧
      resp.structured.checks.encryptionStatus.passed = false) :=
  ⟨by decide, ⟨jstr "Decryption failed: invalid key or tampered data", by decide⟩,
    C7_verify_failure_shape demoBadStore demoKey demoNow (jstr "a") demoBadEv
      (by decide)
      ⟨jstr "Decryption failed: invalid key or tampered data", by decide⟩⟩

/-! ## Lemmas: export checksums -/

theorem length_flatMap_hexByte (l : List Nat) :
    (l.flatMap hexByte).length = 2 * l.length := by
  induction l with
  | nil => rfl
  | cons b bs ih =>
    rw [List.flatMap_cons, List.length_append, ih]
    simp [hexByte]
    omega

theorem length_sha256 (msg : List Nat) : (sha256 msg).length = 32 := by
  simp [sha256, be32Bytes]

theorem length_sha256Hex (msg : List Nat) : (sha256Hex msg).length = 64 := by
  rw [sha256Hex, length_flatMap_hexByte, length_sha256]

theorem checksumPathOf_entry (x : List Nat) (p q : JSStr) :
    checksumPathOf (sha256Hex x ++ jstr "  " ++ p ++ q) = p ++ q := by
  rw [checksumPathOf, List.append_assoc]
  exact List.drop_left' (by rw [List.length_append, length_sha256Hex]; rfl)

theorem checksumPathOf_entry2 (x : List Nat) (p q : JSStr) :
    checksumPathOf (sha256Hex x ++ (jstr "  " ++ (p ++ q))) = p ++ q := by
  rw [← List.append_assoc, ← List.append_assoc]
  exact checksumPathOf_entry x p q

/-! ## Claim C9: exporting without ids exports the whole store -/

/-- C9: when the ids parameter is omitted and the size ceiling is not
exceeded, `exportEvidences` succeeds, its count equals the number of records
in the store, and the archive holds a per-record `encrypted-data` entry for
every stored record. -/
theorem C9_export_all_when_ids_omitted (store : Store) (nowIso : JSStr)
    (includeGitInfo : Bool)
    (hsize : ((store.map (fun e => e.encryptedContent.length)).sum : Nat) ≤
      100 * 1024 * 1024) :
    ∃ res, exportEvidences store nowIso none includeGitInfo = .ok res ∧
      res.evidenceCount = store.length ∧
      ∀ e ∈ store,
        (evidenceFolder e ++ jstr "/encrypted-data") ∈ res.files.map Prod.fst := by
  have hperm :
      ((sortByTimestampDesc store).map (fun e => e.encryptedContent.length)).sum =
        (store.map (fun e => e.encryptedContent.length)).sum :=
    ((sortBy_perm _ store).map _).sum_eq
  have hsel : exportSelect store none = .ok (sortByTimestampDesc store) := by
    simp [exportSelect, dbList, applyPage, sortByTimestampDesc]
  unfold exportEvidences
  split
  · rename_i e heq
    rw [hsel] at heq
    nomatch heq
  rename_i evidences heq
  rw [hsel] at heq
  have hev : evidences = sortByTimestampDesc store := (Except.ok.inj heq).symm
  subst hev
  rw [if_neg (by omega)]
  refine ⟨_, rfl, ?_, ?_⟩
  · show (sortByTimestampDesc store).length = store.length
    exact length_sortBy _ store
  · intro e he
    have he' : e ∈ sortByTimestampDesc store := (mem_sortBy _ e store).mpr he
    have hfile : (evidenceFolder e ++ jstr "/encrypted-data",
        FileData.bytes e.encryptedContent) ∈
        (sortByTimestampDesc store).flatMap (perRecordFiles includeGitInfo) := by
      rw [List.mem_flatMap]
      exact ⟨e, he', by simp [perRecordFiles]⟩
    show (evidenceFolder e ++ jstr "/encrypted-data") ∈
      ((jstr "manifest.json",
        FileData.text (manifestJson nowIso (sortByTimestampDesc store).length includeGitInfo)) ::
        ((sortByTimestampDesc store).flatMap (perRecordFiles includeGitInfo) ++
          [(jstr "checksum.txt",
            FileData.text (checksumContent ((sortByTimestampDesc store).flatMap
              (perRecordChecksums includeGitInfo))))])).map Prod.fst
    rw [List.map_cons, List.mem_cons]
    right
    rw [List.map_append, List.mem_append]
    left
    exact List.mem_map_of_mem Prod.fst hfile

/-- Witness for C9 on the demo store. -/
theorem C9_export_all_when_ids_omitted_witness :
    ((demoStore.map (fun e => e.encryptedContent.length)).sum : Nat) ≤
      100 * 1024 * 1024 ∧
    (∃ res, exportEvidences demoStore demoNow none false = .ok res ∧
      res.evidenceCount = demoStore.length ∧
      ∀ e ∈ demoStore,
        (evidenceFolder e ++ jstr "/encrypted-data") ∈ res.files.map Prod.fst) :=
  ⟨by decide, C9_export_all_when_ids_omitted demoStore demoNow false (by decide)⟩

/-! ## Claim C2: export checksum-manifest contents -/

set_option maxRecDepth 40000 in
/-- C2 (counterexample to the claim as stated): exporting the two demo records
produces an archive containing `manifest.json` and `checksum.txt`, yet the
checksum manifest has no line for `manifest.json` — it lists exactly the
per-record files, so it does not cover every file in the archive. -/
theorem C2_counterexample :
    exportEvidences demoStore demoNow (some [jstr "a", jstr "b"]) false =
      .ok demoExportAB ∧
    (jstr "manifest.json") ∈ demoExportAB.files.map Prod.fst ∧
    (jstr "checksum.txt") ∈ demoExportAB.files.map Prod.fst ∧
    ¬ (jstr "manifest.json") ∈ demoExportAB.checksumEntries.map checksumPathOf ∧
    demoExportAB.checksumEntries.map checksumPathOf =
      [jstr "evidences/a/encrypted-data", jstr "evidences/a/metadata.json",
       jstr "evidences/b/encrypted-data", jstr "evidences/b/metadata.json"] := by
  decide

/-- C2 (amended): exporting ids `[a, b]` (both present, within the size
ceiling), with or without git info requested, produces an archive whose
checksum manifest lists exactly the per-record files of `a` and `b` —
`encrypted-data` and `metadata.json` per record, plus `git-info.json` when
requested and the record carries git data — and whose archive files are those
plus `manifest.json` and `checksum.txt`, which carry no checksum line. -/
theorem C2_checksum_entries_amended (store : Store) (nowIso : JSStr) (gi : Bool)
    (a b : JSStr) (ea eb : Evidence)
    (ha : findById store a = some ea) (hb : findById store b = some eb)
    (hsize : ea.encryptedContent.length + eb.encryptedContent.length ≤
      100 * 1024 * 1024) :
    ∃ res, exportEvidences store nowIso (some [a, b]) gi = .ok res ∧
      res.checksumEntries.map checksumPathOf =
        [evidenceFolder ea ++ jstr "/encrypted-data",
         evidenceFolder ea ++ jstr "/metadata.json"] ++
        (if hasGitFile gi ea then [evidenceFolder ea ++ jstr "/git-info.json"]
         else []) ++
        [evidenceFolder eb ++ jstr "/encrypted-data",
         evidenceFolder eb ++ jstr "/metadata.json"] ++
        (if hasGitFile gi eb then [evidenceFolder eb ++ jstr "/git-info.json"]
         else []) ∧
      res.files.map Prod.fst =
        jstr "manifest.json" ::
        ([evidenceFolder ea ++ jstr "/encrypted-data",
          evidenceFolder ea ++ jstr "/metadata.json"] ++
         (if hasGitFile gi ea then [evidenceFolder ea ++ jstr "/git-info.json"]
          else []) ++
         [evidenceFolder eb ++ jstr "/encrypted-data",
          evidenceFolder eb ++ jstr "/metadata.json"] ++
         (if hasGitFile gi eb then [evidenceFolder eb ++ jstr "/git-info.json"]
          else []) ++
         [jstr "checksum.txt"]) := by
  have hsel : exportSelect store (some [a, b]) = .ok [ea, eb] := by
    simp [exportSelect, ha, hb]
  unfold exportEvidences
  split
  · rename_i e heq
    rw [hsel] at heq
    nomatch heq
  rename_i evidences heq
  rw [hsel] at heq
  have hev : evidences = [ea, eb] := (Except.ok.inj heq).symm
  subst hev
  rw [if_neg (by simp; omega)]
  refine ⟨_, rfl, ?_, ?_⟩
  · cases hga : hasGitFile gi ea <;> cases hgb : hasGitFile gi eb <;>
      simp [perRecordChecksums, hga, hgb, checksumPathOf_entry, checksumPathOf_entry2]
  · cases hga : hasGitFile gi ea <;> cases hgb : hasGitFile gi eb <;>
      simp [perRecordFiles, hga, hgb]

/-- Witness for the amended C2: exporting records `a` and `c` with git info
requested; record `c` carries git data, so its `git-info.json` appears in both
the archive and the checksum manifest. -/
theorem C2_checksum_entries_amended_witness :
    findById demoStoreG (jstr "a") = some demoEvA ∧
    findById demoStoreG (jstr "c") = some demoEvG ∧
    hasGitFile true demoEvA = false ∧
    hasGitFile true demoEvG = true ∧
    demoEvA.encryptedContent.length + demoEvG.encryptedContent.length ≤
      100 * 1024 * 1024 ∧
    (∃ res, exportEvidences demoStoreG demoNow (some [jstr "a", jstr "c"]) true =
        .ok res ∧
      res.checksumEntries.map checksumPathOf =
        [evidenceFolder demoEvA ++ jstr "/encrypted-data",
         evidenceFolder demoEvA ++ jstr "/metadata.json"] ++
        (if hasGitFile true demoEvA then
          [evidenceFolder demoEvA ++ jstr "/git-info.json"] else []) ++
        [evidenceFolder demoEvG ++ jstr "/encrypted-data",
         evidenceFolder demoEvG ++ jstr "/metadata.json"] ++
        (if hasGitFile true demoEvG then
          [evidenceFolder demoEvG ++ jstr "/git-info.json"] else []) ∧
      res.files.map Prod.fst =
        jstr "manifest.json" ::
        ([evidenceFolder demoEvA ++ jstr "/encrypted-data",
          evidenceFolder demoEvA ++ jstr "/metadata.json"] ++
         (if hasGitFile true demoEvA then
           [evidenceFolder demoEvA ++ jstr "/git-info.json"] else []) ++
         [evidenceFolder demoEvG ++ jstr "/encrypted-data",
          evidenceFolder demoEvG ++ jstr "/metadata.json"] ++
         (if hasGitFile true demoEvG then
           [evidenceFolder demoEvG ++ jstr "/git-info.json"] else []) ++
         [jstr "checksum.txt"])) :=
  ⟨by decide, by decide, by decide, by decide, by decide,
    C2_checksum_entries_amended demoStoreG demoNow true (jstr "a") (jstr "c")
      demoEvA demoEvG (by decide) (by decide) (by decide)⟩

/-! ## Claim C1: AEAD round trip -/

set_option maxRecDepth 40000 in
/-- C1 (counterexample to the claim as stated): encrypting the one-character
plaintext U+FEFF and decrypting the result yields the empty string, because
the default `TextDecoder` strips a leading byte order mark.  The round trip
therefore fails for this plaintext. -/
theorem C1_counterexample :
    (encrypt (jstr "﻿") demoKey demoRand).bind
      (fun ed => decrypt ed.ciphertext ed.nonce demoKey) = .ok (jstr "") ∧
    jstr "" ≠ jstr "﻿" := by
  decide

/-- C1 (amended): for every plaintext of Unicode scalar values that does not
begin with U+FEFF and every 32-byte key, decrypting the ciphertext/nonce pair
produced by `encrypt` with the same key returns the plaintext. -/
theorem C1_roundtrip_amended (p : JSStr) (key rand : List Nat)
    (hkey : key.length = 32) (hrand : rand.length = 24)
    (hval : ∀ v ∈ p, validScalar v) (hbom : p.head? ≠ some 0xFEFF) :
    (encrypt p key rand).bind (fun ed => decrypt ed.ciphertext ed.nonce key) =
      .ok p :=
  decrypt_encrypt p key rand hkey hrand hval hbom

set_option maxRecDepth 40000 in
/-- Witness for the amended C1 at a concrete plaintext, key and nonce. -/
theorem C1_roundtrip_amended_witness :
    demoKey.length = 32 ∧ demoRand.length = 24 ∧
    (∀ v ∈ jstr "Hello ✓ world", validScalar v) ∧
    (jstr "Hello ✓ world").head? ≠ some 0xFEFF ∧
    (encrypt (jstr "Hello ✓ world") demoKey demoRand).bind
      (fun ed => decrypt ed.ciphertext ed.nonce demoKey) =
      .ok (jstr "Hello ✓ world") :=
  ⟨by decide, by decide, by decide, by decide,
    C1_roundtrip_amended (jstr "Hello ✓ world") demoKey demoRand
      (by decide) (by decide) (by decide) (by decide)⟩

/-! ## Claim C3: tag deduplication -/

/-- C3 (counterexample to the claim as stated): renaming tag `a` to `b` on a
record already tagged `b` stores the duplicated tag list `b,b`, so not every
tag mutation leaves the stored tag list free of duplicate tokens. -/
theorem C3_counterexample :
    (dbRenameTag demoStoreC3 demoNow (jstr "a") (jstr "b") (fun _ => false)).2 =
      .ok 1 ∧
    ((dbRenameTag demoStoreC3 demoNow (jstr "a") (jstr "b")
      (fun _ => false)).1.map Evidence.tags) = [some (jstr "b,b")] ∧
    ¬ (splitComma (jstr "b,b")).Nodup := by
  decide

/-! ## Lemmas: tag token lists -/

theorem splitComma_no_comma (s : JSStr) : ∀ t ∈ splitComma s, ¬ 44 ∈ t := by
  induction s with
  | nil =>
    intro t ht
    simp only [splitComma, List.mem_singleton] at ht
    simp [ht]
  | cons c rest ih =>
    intro t ht
    rw [splitComma] at ht
    by_cases hc : c = 44
    · rw [if_pos (by simp [hc])] at ht
      rcases List.mem_cons.mp ht with h | h
      · simp [h]
      · exact ih t h
    · rw [if_neg (by simp [hc])] at ht
      rcases hsp : splitComma rest with _ | ⟨t0, ts⟩
      · rw [hsp] at ht
        rcases List.mem_singleton.mp ht with rfl
        intro hmem
        rcases List.mem_singleton.mp hmem with rfl
        exact hc rfl
      · rw [hsp] at ht
        rcases List.mem_cons.mp ht with h | h
        · subst h
          intro hmem
          rcases List.mem_cons.mp hmem with h' | h'
          · exact hc h'.symm
          · exact ih t0 (by rw [hsp]; exact List.mem_cons_self t0 ts) h'
        · exact ih t (by rw [hsp]; exact List.mem_cons_of_mem t0 h)

theorem trimStr_subset (t : JSStr) : ∀ c ∈ trimStr t, c ∈ t := by
  intro c hc
  rw [trimStr] at hc
  rw [List.mem_reverse] at hc
  have h1 := (List.dropWhile_sublist (l := (t.dropWhile jsSpace).reverse) jsSpace).mem hc
  rw [List.mem_reverse] at h1
  exact (List.dropWhile_sublist jsSpace).mem h1

theorem splitComma_single (t : JSStr) (h : ¬ 44 ∈ t) : splitComma t = [t] := by
  induction t with
  | nil => rfl
  | cons c rest ih =>
    rw [splitComma, if_neg (by simp; intro hc; exact h (by simp [hc])),
      ih (fun hm => h (List.mem_cons_of_mem c hm))]

theorem splitComma_append (t r : JSStr) (h : ¬ 44 ∈ t) :
    splitComma (t ++ 44 :: r) = t :: splitComma r := by
  induction t with
  | nil => rw [List.nil_append, splitComma, if_pos (by simp)]
  | cons c rest ih =>
    rw [List.cons_append, splitComma,
      if_neg (by simp; intro hc; exact h (by simp [hc])),
      ih (fun hm => h (List.mem_cons_of_mem c hm))]

theorem splitComma_joinComma (l : List JSStr) (hne : l ≠ [])
    (h : ∀ t ∈ l, ¬ 44 ∈ t) : splitComma (joinComma l) = l := by
  induction l with
  | nil => exact absurd rfl hne
  | cons t ts ih =>
    cases ts with
    | nil =>
      rw [joinComma]
      exact splitComma_single t (h t (by simp))
    | cons u us =>
      have hih := ih (List.cons_ne_nil u us)
        (fun x hx => h x (List.mem_cons_of_mem t hx))
      rw [joinComma, splitComma_append t _ (h t (by simp)), hih]
      exact fun hc => List.noConfusion hc

theorem jsDedupAux_subset (seen l : List JSStr) :
    ∀ x ∈ jsDedupAux seen l, x ∈ l := by
  induction l generalizing seen with
  | nil => intro x hx; exact absurd hx (by simp [jsDedupAux])
  | cons t ts ih =>
    intro x hx
    rw [jsDedupAux] at hx
    split at hx
    · exact List.mem_cons_of_mem t (ih seen x hx)
    · rcases List.mem_cons.mp hx with h | h
      · simp [h]
      · exact List.mem_cons_of_mem t (ih (t :: seen) x h)

theorem jsDedupAux_nodup (l : List JSStr) : ∀ seen,
    (jsDedupAux seen l).Nodup ∧ ∀ x ∈ jsDedupAux seen l, ¬ x ∈ seen := by
  induction l with
  | nil => intro seen; simp [jsDedupAux]
  | cons t ts ih =>
    intro seen
    rw [jsDedupAux]
    split
    · exact ⟨(ih seen).1, (ih seen).2⟩
    · rename_i hseen
      refine ⟨List.nodup_cons.mpr ⟨?_, (ih (t :: seen)).1⟩, ?_⟩
      · intro hmem
        exact (ih (t :: seen)).2 t hmem (List.mem_cons_self t seen)
      · intro x hx
        rcases List.mem_cons.mp hx with h | h
        · subst h
          intro hc
          exact hseen (List.elem_iff.mpr hc)
        · intro hc
          exact (ih (t :: seen)).2 x h (List.mem_cons_of_mem t hc)

theorem jsDedup_nodup (l : List JSStr) : (jsDedup l).Nodup :=
  (jsDedupAux_nodup l []).1

theorem jsDedup_subset (l : List JSStr) : ∀ x ∈ jsDedup l, x ∈ l :=
  jsDedupAux_subset [] l

theorem jsDedup_ne_nil (l : List JSStr) (h : l ≠ []) : jsDedup l ≠ [] := by
  cases l with
  | nil => exact absurd rfl h
  | cons t ts =>
    rw [jsDedup, jsDedupAux]
    simp

theorem parseTags_no_comma (s : JSStr) : ∀ t ∈ parseTags s, ¬ 44 ∈ t := by
  intro t ht
  rw [parseTags] at ht
  obtain ⟨ht', _⟩ := List.mem_filter.mp ht
  obtain ⟨y, hy, rfl⟩ := List.mem_map.mp ht'
  intro hc
  exact splitComma_no_comma s y hy (trimStr_subset y 44 hc)

theorem existingTags_no_comma (o : Option JSStr) :
    ∀ t ∈ ((match o with
            | some s => parseTags s
            | none => []) : List JSStr), ¬ 44 ∈ t := by
  cases o with
  | none => intro t ht; exact absurd ht (by simp)
  | some s => exact parseTags_no_comma s

/-- C3 (amended): after a successful `addTags` with comma-free input tags, the
affected record's stored delimited tag list contains no duplicate tokens
(`renameTag`, `updateTags` and `removeTag` do not deduplicate). -/
theorem C3_dedup_amended (store : Store) (now id : JSStr) (tags : List JSStr)
    (hcf : ∀ t ∈ tags, ¬ 44 ∈ t) (store' : Store)
    (h : dbAddTags store now id tags = .ok store') :
    ∀ r ∈ store', r.id = id → ∃ s, r.tags = some s ∧ (splitComma s).Nodup := by
  simp only [dbAddTags] at h
  split at h
  · exact absurd h (by simp)
  split at h
  · exact absurd h (by simp)
  rename_i hvalid
  split at h
  · exact absurd h (by simp)
  rename_i evidence hfind
  rw [dbUpdateTags, Except.ok.injEq] at h
  intro r hr hrid
  rw [← h] at hr
  obtain ⟨r₀, hr₀, hfr⟩ := List.mem_map.mp hr
  by_cases hid : (r₀.id == id) = true
  · rw [if_pos hid] at hfr
    refine ⟨_, by rw [← hfr], ?_⟩
    rw [splitComma_joinComma]
    · exact jsDedup_nodup _
    · apply jsDedup_ne_nil
      intro hc
      rw [List.append_eq_nil] at hc
      rw [hc.2] at hvalid
      exact hvalid (by simp)
    · intro x hx
      rcases List.mem_append.mp (jsDedup_subset _ x hx) with hx' | hx'
      · exact existingTags_no_comma evidence.tags x hx'
      · obtain ⟨hx'', _⟩ := List.mem_filter.mp hx'
        obtain ⟨y, hy, rfl⟩ := List.mem_map.mp hx''
        intro hc
        exact hcf y hy (trimStr_subset y 44 hc)
  · rw [if_neg hid] at hfr
    rw [← hfr] at hrid
    exact absurd (beq_iff_eq.mpr hrid) hid

/-- Witness for the amended C3 on the demo store. -/
theorem C3_dedup_amended_witness :
    (∀ t ∈ [jstr "beta", jstr "new"], ¬ 44 ∈ t) ∧
    dbAddTags demoStore demoNow (jstr "a") [jstr "beta", jstr "new"] =
      .ok demoAddStore ∧
    (∀ r ∈ demoAddStore, r.id = jstr "a" →
      ∃ s, r.tags = some s ∧ (splitComma s).Nodup) :=
  ⟨by decide, by decide,
    C3_dedup_amended demoStore demoNow (jstr "a") [jstr "beta", jstr "new"]
      (by decide) demoAddStore (by decide)⟩

/-! ## Lemmas: prefix / substring / suffix predicates -/

theorem strStarts_iff_append (q s : List Nat) :
    strStarts q s = true ↔ ∃ r, s = q ++ r := by
  induction q generalizing s with
  | nil => simp [strStarts]
  | cons c q' ih =>
    cases s with
    | nil => simp [strStarts]
    | cons d s' =>
      simp only [strStarts, Bool.and_eq_true, beq_iff_eq]
      rw [ih]
      constructor
      · rintro ⟨rfl, r, rfl⟩
        exact ⟨r, rfl⟩
      · rintro ⟨r, hr⟩
        rw [List.cons_append] at hr
        injection hr with h1 h2
        exact ⟨h1.symm, r, h2⟩

theorem strStarts_append_self (q r : List Nat) : strStarts q (q ++ r) = true := by
  rw [strStarts_iff_append]
  exact ⟨r, rfl⟩

theorem strStarts_mem (q s : List Nat) (h : strStarts q s = true) :
    ∀ c ∈ q, c ∈ s := by
  obtain ⟨r, rfl⟩ := (strStarts_iff_append q s).mp h
  exact fun c hc => List.mem_append_left r hc

theorem containsStr_nil (p : List Nat) : containsStr p [] = strStarts p [] := by
  simp [containsStr]

theorem containsStr_cons (p : List Nat) (c : Nat) (s' : List Nat) :
    containsStr p (c :: s') = (strStarts p (c :: s') || containsStr p s') := rfl

theorem containsStr_of_starts (p s : List Nat) (h : strStarts p s = true) :
    containsStr p s = true := by
  cases s with
  | nil => rw [containsStr_nil]; exact h
  | cons d s' => rw [containsStr_cons, h, Bool.true_or]

theorem containsStr_mono (p a s : List Nat) (h : containsStr p s = true) :
    containsStr p (a ++ s) = true := by
  induction a with
  | nil => simpa
  | cons c a' ih => rw [List.cons_append, containsStr_cons, ih, Bool.or_true]

theorem containsStr_mem (p s : List Nat) (h : containsStr p s = true) :
    ∀ c ∈ p, c ∈ s := by
  induction s with
  | nil =>
    rw [containsStr_nil] at h
    exact strStarts_mem p [] h
  | cons d s' ih =>
    rw [containsStr_cons, Bool.or_eq_true] at h
    rcases h with h | h
    · exact strStarts_mem _ _ h
    · exact fun c hc => List.mem_cons_of_mem d (ih h c hc)

theorem strEnds_nil (p : List Nat) : strEnds p [] = (p == []) := by
  simp [strEnds]

theorem strEnds_cons (p : List Nat) (c : Nat) (s' : List Nat) :
    strEnds p (c :: s') = ((p == c :: s') || strEnds p s') := rfl

theorem strEnds_append_self (a σ : List Nat) : strEnds σ (a ++ σ) = true := by
  induction a with
  | nil =>
    rw [List.nil_append]
    cases σ with
    | nil => rfl
    | cons c s' => rw [strEnds_cons, beq_self_eq_true, Bool.true_or]
  | cons c a' ih => rw [List.cons_append, strEnds_cons, ih, Bool.or_true]

theorem strEnds_mono (σ a s : List Nat) (h : strEnds σ s = true) :
    strEnds σ (a ++ s) = true := by
  induction a with
  | nil => simpa
  | cons c a' ih => rw [List.cons_append, strEnds_cons, ih, Bool.or_true]

theorem strEnds_mem (σ s : List Nat) (h : strEnds σ s = true) :
    ∀ c ∈ σ, c ∈ s := by
  induction s with
  | nil =>
    rw [strEnds_nil, beq_iff_eq] at h
    subst h
    exact fun c hc => hc
  | cons d s' ih =>
    rw [strEnds_cons, Bool.or_eq_true] at h
    rcases h with h | h
    · rw [beq_iff_eq] at h
      exact fun c hc => h ▸ hc
    · exact fun c hc => List.mem_cons_of_mem d (ih h c hc)

/-! ## Lemmas: LIKE patterns against clean strings -/

theorem anySuffix_nilpat (s : List Nat) : anySuffix (likeMatch []) s = true := by
  induction s with
  | nil => rfl
  | cons c s' ih => rw [anySuffix, ih, Bool.or_true]

theorem likeMatch_percent (p' : List Nat) (s : List Nat) :
    likeMatch (37 :: p') s = anySuffix (likeMatch p') s := by
  simp [likeMatch]

theorem likeMatch_exact (q : List Nat)
    (hq : ∀ c ∈ q, c ≠ 37 ∧ c ≠ 95 ∧ likeFold c = c) :
    ∀ s, (∀ c ∈ s, likeFold c = c) → (likeMatch q s = true ↔ q = s) := by
  induction q with
  | nil =>
    intro s _
    simp only [likeMatch, beq_iff_eq]
    exact eq_comm
  | cons c q' ih =>
    intro s hs
    obtain ⟨h37, h95, hfold⟩ := hq c (by simp)
    cases s with
    | nil =>
      simp only [likeMatch]
      rw [if_neg (by simp [h37]), if_neg (by simp [h95])]
      simp
    | cons d s' =>
      simp only [likeMatch]
      rw [if_neg (by simp [h37]), if_neg (by simp [h95])]
      rw [hfold, hs d (by simp)]
      rw [Bool.and_eq_true, beq_iff_eq,
        ih (fun x hx => hq x (by simp [hx])) s' (fun x hx => hs x (by simp [hx]))]
      simp

theorem likeMatch_prefix_pat (q : List Nat)
    (hq : ∀ c ∈ q, c ≠ 37 ∧ c ≠ 95 ∧ likeFold c = c) :
    ∀ s, (∀ c ∈ s, likeFold c = c) →
      likeMatch (q ++ [37]) s = strStarts q s := by
  induction q with
  | nil =>
    intro s _
    rw [List.nil_append, likeMatch_percent, anySuffix_nilpat]
    rfl
  | cons c q' ih =>
    intro s hs
    obtain ⟨h37, h95, hfold⟩ := hq c (by simp)
    rw [List.cons_append]
    cases s with
    | nil =>
      simp only [likeMatch]
      rw [if_neg (by simp [h37]), if_neg (by simp [h95])]
      rfl
    | cons d s' =>
      simp only [likeMatch]
      rw [if_neg (by simp [h37]), if_neg (by simp [h95])]
      rw [hfold, hs d (by simp),
        ih (fun x hx => hq x (by simp [hx])) s' (fun x hx => hs x (by simp [hx]))]
      rfl

theorem bool_eq_of_iff {a b : Bool} (h : a = true ↔ b = true) : a = b := by
  cases a <;> cases b <;> simp_all

theorem likeMatch_contains_pat (u : List Nat)
    (hu : ∀ c ∈ u, c ≠ 37 ∧ c ≠ 95 ∧ likeFold c = c) :
    ∀ s, (∀ c ∈ s, likeFold c = c) →
      likeMatch (37 :: (u ++ [37])) s = containsStr u s := by
  intro s
  induction s with
  | nil =>
    intro _
    rw [likeMatch_percent, anySuffix,
      likeMatch_prefix_pat u hu [] (fun c hc => absurd hc (by simp)),
      containsStr_nil]
  | cons d s' ih =>
    intro hs
    rw [likeMatch_percent, anySuffix]
    have hrec : anySuffix (likeMatch (u ++ [37])) s' = containsStr u s' := by
      rw [← likeMatch_percent]
      exact ih (fun x hx => hs x (by simp [hx]))
    rw [hrec, likeMatch_prefix_pat u hu (d :: s') hs, containsStr_cons]

theorem likeMatch_suffix_pat (u : List Nat)
    (hu : ∀ c ∈ u, c ≠ 37 ∧ c ≠ 95 ∧ likeFold c = c) :
    ∀ s, (∀ c ∈ s, likeFold c = c) →
      likeMatch (37 :: u) s = strEnds u s := by
  intro s
  induction s with
  | nil =>
    intro _
    rw [likeMatch_percent, anySuffix, strEnds_nil]
    apply bool_eq_of_iff
    rw [beq_iff_eq]
    exact likeMatch_exact u hu [] (fun c hc => absurd hc (by simp))
  | cons d s' ih =>
    intro hs
    rw [likeMatch_percent, anySuffix]
    have hrec : anySuffix (likeMatch u) s' = strEnds u s' := by
      rw [← likeMatch_percent]
      exact ih (fun x hx => hs x (by simp [hx]))
    rw [hrec, strEnds_cons]
    congr 1
    apply bool_eq_of_iff
    rw [beq_iff_eq]
    exact likeMatch_exact u hu (d :: s') hs

/-! ## Lemmas: token matching over comma-joined lists -/

theorem comma_split_unique (t : List Nat) (ht : ¬ 44 ∈ t) :
    ∀ t₀ x y, ¬ 44 ∈ t₀ → t ++ 44 :: x = t₀ ++ 44 :: y → t = t₀ ∧ x = y := by
  induction t with
  | nil =>
    intro t₀ x y ht₀ h
    cases t₀ with
    | nil =>
      rw [List.nil_append, List.nil_append] at h
      injection h with _ h2
      exact ⟨rfl, h2⟩
    | cons c t₀' =>
      rw [List.nil_append, List.cons_append] at h
      injection h with h1 _
      exact absurd (by simp [← h1]) ht₀
  | cons c t' ih =>
    intro t₀ x y ht₀ h
    cases t₀ with
    | nil =>
      rw [List.cons_append, List.nil_append] at h
      injection h with h1 _
      exact absurd (by simp [h1]) ht
    | cons c₀ t₀' =>
      rw [List.cons_append, List.cons_append] at h
      injection h with h1 h2
      have := ih (fun hm => ht (by simp [hm])) t₀' x y
        (fun hm => ht₀ (by simp [hm])) h2
      exact ⟨by rw [h1, this.1], this.2⟩

theorem containsStr_comma_split (w t₀ jr : List Nat) (ht₀ : ¬ 44 ∈ t₀) :
    containsStr (44 :: w) (t₀ ++ 44 :: jr) =
      (strStarts w jr || containsStr (44 :: w) jr) := by
  induction t₀ with
  | nil =>
    rw [List.nil_append, containsStr_cons]
    congr 1
  | cons c t₀' ih =>
    rw [List.cons_append, containsStr_cons, ih (fun hm => ht₀ (by simp [hm]))]
    have hc : ((44 : Nat) == c) = false := by
      rw [beq_eq_false_iff_ne]
      intro h
      exact ht₀ (by simp [← h])
    have hfalse : strStarts (44 :: w) (c :: (t₀' ++ 44 :: jr)) = false := by
      simp only [strStarts, hc, Bool.false_and]
    rw [hfalse, Bool.false_or]

theorem strEnds_comma_split (w t₀ jr : List Nat) (ht₀ : ¬ 44 ∈ t₀) :
    strEnds (44 :: w) (t₀ ++ 44 :: jr) = ((w == jr) || strEnds (44 :: w) jr) := by
  induction t₀ with
  | nil =>
    rw [List.nil_append, strEnds_cons]
    congr 1
  | cons c t₀' ih =>
    rw [List.cons_append, strEnds_cons, ih (fun hm => ht₀ (by simp [hm]))]
    have hfalse : ((44 :: w : List Nat) == c :: (t₀' ++ 44 :: jr)) = false := by
      rw [beq_eq_false_iff_ne]
      intro h
      injection h with h1 _
      exact ht₀ (by simp [h1])
    rw [hfalse, Bool.false_or]

theorem joinComma_cons (t : JSStr) (ts : List JSStr) (h : ts ≠ []) :
    joinComma (t :: ts) = t ++ 44 :: joinComma ts := by
  cases ts with
  | nil => exact absurd rfl h
  | cons u us => rfl

theorem tag_tokens_match (t : JSStr) (ht : ¬ 44 ∈ t) :
    ∀ (toks : List JSStr), toks ≠ [] → (∀ u ∈ toks, ¬ 44 ∈ u) →
      ((strStarts (t ++ [44]) (joinComma toks) = true ∨
        containsStr (44 :: (t ++ [44])) (joinComma toks) = true ∨
        strEnds (44 :: t) (joinComma toks) = true ∨
        joinComma toks = t) ↔ t ∈ toks) := by
  intro toks
  induction toks with
  | nil => intro hne _; exact absurd rfl hne
  | cons t₀ rest ih =>
    intro _ hcf
    have ht₀ : ¬ 44 ∈ t₀ := hcf t₀ (by simp)
    cases rest with
    | nil =>
      rw [joinComma]
      constructor
      · rintro (h | h | h | h)
        · exact absurd (strStarts_mem _ _ h 44 (by simp)) ht₀
        · exact absurd (containsStr_mem _ _ h 44 (by simp)) ht₀
        · exact absurd (strEnds_mem _ _ h 44 (by simp)) ht₀
        · simp [h]
      · intro hmem
        have : t = t₀ := List.mem_singleton.mp hmem
        exact Or.inr (Or.inr (Or.inr this.symm))
    | cons u us =>
      have hne2 : (u :: us : List JSStr) ≠ [] := List.cons_ne_nil u us
      have ihr := ih hne2 (fun x hx => hcf x (by simp [hx]))
      rw [joinComma_cons t₀ (u :: us) hne2]
      constructor
      · rintro (h | h | h | h)
        · obtain ⟨r, hr⟩ := (strStarts_iff_append _ _).mp h
          rw [List.append_assoc] at hr
          have := comma_split_unique t₀ ht₀ t (joinComma (u :: us)) r ht hr
          exact List.mem_cons.mpr (Or.inl this.1.symm)
        · rw [containsStr_comma_split _ _ _ ht₀, Bool.or_eq_true] at h
          rcases h with h | h
          · exact List.mem_cons_of_mem t₀ (ihr.mp (Or.inl h))
          · exact List.mem_cons_of_mem t₀ (ihr.mp (Or.inr (Or.inl h)))
        · rw [strEnds_comma_split _ _ _ ht₀, Bool.or_eq_true] at h
          rcases h with h | h
          · rw [beq_iff_eq] at h
            exact List.mem_cons_of_mem t₀ (ihr.mp (Or.inr (Or.inr (Or.inr h.symm))))
          · exact List.mem_cons_of_mem t₀ (ihr.mp (Or.inr (Or.inr (Or.inl h))))
        · have h44 : (44 : Nat) ∈ t₀ ++ 44 :: joinComma (u :: us) :=
            List.mem_append_right t₀ (by simp)
          exact absurd (h ▸ h44) ht
      · intro hmem
        rcases List.mem_cons.mp hmem with rfl | hmem'
        · left
          rw [show t ++ 44 :: joinComma (u :: us) =
            (t ++ [44]) ++ joinComma (u :: us) from by
              rw [List.append_assoc]; rfl]
          exact strStarts_append_self _ _
        · rcases ihr.mpr hmem' with h | h | h | h
          · right; left
            obtain ⟨r, hr⟩ := (strStarts_iff_append _ _).mp h
            rw [hr]
            rw [show (44 :: ((t ++ [44]) ++ r) : List Nat) =
              (44 :: (t ++ [44])) ++ r from rfl]
            exact containsStr_mono _ _ _
              (containsStr_of_starts _ _ (strStarts_append_self _ _))
          · right; left
            rw [show t₀ ++ 44 :: joinComma (u :: us) =
              (t₀ ++ [44]) ++ joinComma (u :: us) from by
                rw [List.append_assoc]; rfl]
            exact containsStr_mono _ _ _ h
          · right; right; left
            rw [show t₀ ++ 44 :: joinComma (u :: us) =
              (t₀ ++ [44]) ++ joinComma (u :: us) from by
                rw [List.append_assoc]; rfl]
            exact strEnds_mono _ _ _ h
          · right; right; left
            rw [h]
            exact strEnds_append_self t₀ (44 :: t)

theorem dropWhile_eq_self_of (p : Nat → Bool) (l : List Nat)
    (h : ∀ c ∈ l, p c = false) : l.dropWhile p = l := by
  cases l with
  | nil => rfl
  | cons c l' =>
    rw [List.dropWhile_cons, if_neg]
    rw [h c (by simp)]
    simp

theorem trimStr_eq_self (t : JSStr) (h : ∀ c ∈ t, jsSpace c = false) :
    trimStr t = t := by
  rw [trimStr, dropWhile_eq_self_of _ _ h,
    dropWhile_eq_self_of _ _ (fun c hc => h c (List.mem_reverse.mp hc)),
    List.reverse_reverse]

theorem joinComma_chars (toks : List JSStr) :
    ∀ c ∈ joinComma toks, c = 44 ∨ ∃ u ∈ toks, c ∈ u := by
  induction toks with
  | nil => intro c hc; exact absurd hc (by simp [joinComma])
  | cons t ts ih =>
    cases ts with
    | nil =>
      rw [joinComma]
      intro c hc
      exact Or.inr ⟨t, by simp, hc⟩
    | cons u us =>
      rw [joinComma_cons _ _ (List.cons_ne_nil u us)]
      intro c hc
      rcases List.mem_append.mp hc with h | h
      · exact Or.inr ⟨t, by simp, h⟩
      · rcases List.mem_cons.mp h with rfl | h'
        · exact Or.inl rfl
        · rcases ih c h' with h44 | ⟨v, hv, hcv⟩
          · exact Or.inl h44
          · exact Or.inr ⟨v, by simp [hv], hcv⟩

theorem tagCond_iff (toks : List JSStr) (t : JSStr) (ht : cleanTok t)
    (htoks : ∀ u ∈ toks, cleanTok u) (hne : toks ≠ []) :
    tagCond (some (joinComma toks)) t = true ↔ t ∈ toks := by
  obtain ⟨htne, htc⟩ := ht
  have hwild : ∀ c ∈ t, c ≠ 37 ∧ c ≠ 95 ∧ likeFold c = c := fun c hc =>
    ⟨(htc c hc).2.1, (htc c hc).2.2.1, (htc c hc).2.2.2.1⟩
  have htcomma : ¬ 44 ∈ t := fun hm => (htc 44 hm).1 rfl
  have htokscomma : ∀ u ∈ toks, ¬ 44 ∈ u := fun u hu hm =>
    (((htoks u hu).2) 44 hm).1 rfl
  have hsfold : ∀ c ∈ joinComma toks, likeFold c = c := by
    intro c hc
    rcases joinComma_chars toks c hc with rfl | ⟨u, hu, hcu⟩
    · rfl
    · exact (((htoks u hu).2) c hcu).2.2.2.1
  have hw1 : ∀ c ∈ t ++ [44], c ≠ 37 ∧ c ≠ 95 ∧ likeFold c = c := by
    intro c hc
    rcases List.mem_append.mp hc with h | h
    · exact hwild c h
    · rcases List.mem_singleton.mp h with rfl
      exact ⟨by decide, by decide, rfl⟩
  have hw2 : ∀ c ∈ 44 :: (t ++ [44]), c ≠ 37 ∧ c ≠ 95 ∧ likeFold c = c := by
    intro c hc
    rcases List.mem_cons.mp hc with rfl | h
    · exact ⟨by decide, by decide, rfl⟩
    · exact hw1 c h
  have hw3 : ∀ c ∈ 44 :: t, c ≠ 37 ∧ c ≠ 95 ∧ likeFold c = c := by
    intro c hc
    rcases List.mem_cons.mp hc with rfl | h
    · exact ⟨by decide, by decide, rfl⟩
    · exact hwild c h
  have hmaster := tag_tokens_match t htcomma toks hne htokscomma
  rw [tagCond]
  simp only [likeOpt]
  rw [show t ++ [44, 37] = (t ++ [44]) ++ [37] from by
    rw [List.append_assoc]; rfl]
  rw [show ([37, 44] : List Nat) ++ t ++ [44, 37] =
    37 :: ((44 :: (t ++ [44])) ++ [37]) from by simp]
  rw [show ([37, 44] : List Nat) ++ t = 37 :: (44 :: t) from rfl]
  rw [likeMatch_prefix_pat (t ++ [44]) hw1 _ hsfold,
    likeMatch_contains_pat (44 :: (t ++ [44])) hw2 _ hsfold,
    likeMatch_suffix_pat (44 :: t) hw3 _ hsfold]
  rw [Bool.or_eq_true, Bool.or_eq_true, Bool.or_eq_true, beq_iff_eq]
  constructor
  · rintro (((h | h) | h) | h)
    · exact hmaster.mp (Or.inl h)
    · exact hmaster.mp (Or.inr (Or.inl h))
    · exact hmaster.mp (Or.inr (Or.inr (Or.inl h)))
    · exact hmaster.mp (Or.inr (Or.inr (Or.inr h)))
  · intro hmem
    rcases hmaster.mpr hmem with h | h | h | h
    · exact Or.inl (Or.inl (Or.inl h))
    · exact Or.inl (Or.inl (Or.inr h))
    · exact Or.inl (Or.inr h)
    · exact Or.inr h

/-! ## Claim C5: exact-token tag filtering -/

/-- C5 (counterexample to the claim as stated): the filter tag `_` is a LIKE
wildcard, so `search(tags = ["_"])` returns a record tagged `a,b` even though
`_` is not one of its tag tokens — the LIKE-based filter is not exact-token
matching for arbitrary filter tags. -/
theorem C5_counterexample :
    dbSearch demoStoreC3 ⟨none, some [jstr "_"], none, none, none, none⟩ =
      demoStoreC3 ∧
    ¬ (jstr "_") ∈ tagTokens (some (jstr "a,b")) := by
  decide

theorem search_tags_mem_iff (store : Store) (ts : List JSStr)
    (hts : ∀ t ∈ ts, cleanTok t) (hstore : normalizedTags store) (r : Evidence) :
    r ∈ dbSearch store ⟨none, some ts, none, none, none, none⟩ ↔
      r ∈ store ∧ ∀ t ∈ ts, t ∈ tagTokens r.tags := by
  rw [dbSearch]
  have hpage : ∀ rows : Store,
      applyPage rows none ((none : Option Int).getD 0) = rows := by
    intro rows
    simp [applyPage]
  rw [hpage, sortByTimestampDesc, mem_sortBy, List.mem_filter]
  have hrm : rowMatches ⟨none, some ts, none, none, none, none⟩ r =
      (if ts.length > 0 then ts.all (fun tag => tagCond r.tags (trimStr tag))
       else true) := by
    simp [rowMatches]
  rw [hrm]
  by_cases hts0 : ts = []
  · subst hts0
    simp
  · rw [if_pos (by cases ts with
      | nil => exact absurd rfl hts0
      | cons a l => simp)]
    have htrim : ∀ t ∈ ts, trimStr t = t := fun t htm =>
      trimStr_eq_self t (fun c hc => ((hts t htm).2 c hc).2.2.2.2)
    constructor
    · rintro ⟨hr, hall⟩
      refine ⟨hr, ?_⟩
      intro t htm
      have hcond := List.all_eq_true.mp hall t htm
      rw [htrim t htm] at hcond
      rcases hstore r hr with hnone | ⟨toks, hne, hcl, heq⟩
      · rw [hnone] at hcond
        exact absurd hcond (by simp [tagCond, likeOpt])
      · rw [heq] at hcond
        rw [heq, tagTokens,
          splitComma_joinComma toks hne
            (fun u hu hm => (((hcl u hu).2) 44 hm).1 rfl)]
        exact (tagCond_iff toks t (hts t htm) hcl hne).mp hcond
    · rintro ⟨hr, hall⟩
      refine ⟨hr, ?_⟩
      rw [List.all_eq_true]
      intro t htm
      rw [htrim t htm]
      rcases hstore r hr with hnone | ⟨toks, hne, hcl, heq⟩
      · have := hall t htm
        rw [hnone] at this
        exact absurd this (by simp [tagTokens])
      · rw [heq]
        have hmem := hall t htm
        rw [heq, tagTokens,
          splitComma_joinComma toks hne
            (fun u hu hm => (((hcl u hu).2) 44 hm).1 rfl)] at hmem
        exact (tagCond_iff toks t (hts t htm) hcl hne).mpr hmem

/-- C5 (amended): for filter tags that are clean tokens (non-empty, free of
commas, LIKE wildcards, upper-case ASCII and whitespace) and a store whose tag
lists are comma-joins of clean tokens, `search(tags = ts)` returns exactly the
records whose delimited tag list contains every tag of `ts` as an exact token
(AND semantics); in particular it never matches partial tag names. -/
theorem C5_search_exact_tokens_amended (store : Store) (ts : List JSStr)
    (hts : ∀ t ∈ ts, cleanTok t) (hstore : normalizedTags store) (r : Evidence) :
    r ∈ dbSearch store ⟨none, some ts, none, none, none, none⟩ ↔
      r ∈ store ∧ ∀ t ∈ ts, t ∈ tagTokens r.tags :=
  search_tags_mem_iff store ts hts hstore r

/-- Witness for the amended C5: the `apigee` scenario — `search(tags=["api"])`
does not return a record whose only tag is `apigee`. -/
theorem C5_search_exact_tokens_amended_witness :
    (∀ t ∈ [jstr "api"], cleanTok t) ∧
    normalizedTags demoStoreApigee ∧
    (demoEvApigee ∈
        dbSearch demoStoreApigee ⟨none, some [jstr "api"], none, none, none, none⟩ ↔
      demoEvApigee ∈ demoStoreApigee ∧
        ∀ t ∈ [jstr "api"], t ∈ tagTokens demoEvApigee.tags) ∧
    ¬ demoEvApigee ∈
        dbSearch demoStoreApigee ⟨none, some [jstr "api"], none, none, none, none⟩ := by
  have hstore : normalizedTags demoStoreApigee := by
    intro r hr
    rcases List.mem_singleton.mp hr with rfl
    exact Or.inr ⟨[jstr "apigee"], by decide, by decide, by decide⟩
  have hiff := C5_search_exact_tokens_amended demoStoreApigee [jstr "api"]
    (by decide) hstore demoEvApigee
  refine ⟨by decide, hstore, hiff, ?_⟩
  intro hmem
  have := (hiff.mp hmem).2 (jstr "api") (by decide)
  exact absurd this (by decide)

/-! ## Lemmas: rename atomicity -/

theorem applyPage_id (rows : Store) :
    applyPage rows none ((none : Option Int).getD 0) = rows := by
  simp [applyPage]

theorem dbSearch_subset (store : Store) (ts : List JSStr) :
    ∀ x ∈ dbSearch store ⟨none, some ts, none, none, none, none⟩, x ∈ store := by
  intro x hx
  rw [dbSearch, applyPage_id, sortByTimestampDesc, mem_sortBy,
    List.mem_filter] at hx
  exact hx.1

theorem dbSearch_ids_nodup (store : Store) (ts : List JSStr)
    (hids : (store.map Evidence.id).Nodup) :
    ((dbSearch store ⟨none, some ts, none, none, none, none⟩).map
      Evidence.id).Nodup := by
  rw [dbSearch, applyPage_id, sortByTimestampDesc]
  have hperm := (sortBy_perm (fun a b => lexLe b.timestamp a.timestamp)
    (List.filter (rowMatches ⟨none, some ts, none, none, none, none⟩) store)).map
    Evidence.id
  rw [hperm.nodup_iff]
  exact List.Nodup.sublist
    ((List.filter_sublist _).map Evidence.id) hids

theorem findCons_pos {α : Type} (p : α → Bool) (a : α) (l : List α)
    (h : p a = true) : List.find? p (a :: l) = some a := by
  simp [List.find?, h]

theorem findCons_neg {α : Type} (p : α → Bool) (a : α) (l : List α)
    (h : p a = false) : List.find? p (a :: l) = List.find? p l := by
  simp [List.find?, h]

theorem find_id_unique (store matched : Store) (r : Evidence)
    (hsub : ∀ e ∈ matched, e ∈ store) (hr : r ∈ store)
    (hids : (store.map Evidence.id).Nodup) :
    matched.find? (fun e => e.id == r.id) =
      if r ∈ matched then some r else none := by
  induction matched with
  | nil => simp
  | cons e rest ih =>
    by_cases hid : (e.id == r.id) = true
    · have heq : e = r :=
        List.inj_on_of_nodup_map hids (hsub e (by simp)) hr (beq_iff_eq.mp hid)
      subst heq
      rw [findCons_pos _ e rest hid, if_pos (by simp)]
    · rw [findCons_neg _ e rest (by simpa using hid),
        ih (fun x hx => hsub x (by simp [hx]))]
      have hre : ¬ r = e := by
        intro h
        subst h
        exact hid (beq_self_eq_true _)
      by_cases hmem : r ∈ rest
      · rw [if_pos hmem, if_pos (by simp [hmem])]
      · rw [if_neg hmem, if_neg (by simp [hmem, hre])]

theorem renameApply_found (now o n : JSStr) (evs : List Evidence) (r e : Evidence)
    (h : evs.find? (fun x => x.id == r.id) = some e) :
    renameApply now o n evs r =
      match e.tags with
      | some s => renameUpd now o n s r
      | none => r := by
  rw [renameApply, h]

theorem renameApply_notfound (now o n : JSStr) (evs : List Evidence) (r : Evidence)
    (h : evs.find? (fun x => x.id == r.id) = none) :
    renameApply now o n evs r = r := by
  rw [renameApply, h]

theorem renameApply_cons_skip (now o n : JSStr) (ev : Evidence) (rest : List Evidence)
    (r : Evidence) (h : (ev.id == r.id) = false) :
    renameApply now o n (ev :: rest) r = renameApply now o n rest r := by
  rw [renameApply, renameApply, findCons_neg (fun x => x.id == r.id) ev rest h]

theorem renameLoop_ok (now oldTag newTag : JSStr) (failAt : Nat → Bool) :
    ∀ (evs : List Evidence), (evs.map Evidence.id).Nodup →
    ∀ store count idx store' count',
      renameLoop now oldTag newTag failAt evs store count idx =
        .ok (store', count') →
      store' = store.map (renameApply now oldTag newTag evs) := by
  intro evs
  induction evs with
  | nil =>
    intro _ store count idx store' count' h
    rw [renameLoop] at h
    injection h with h
    injection h with h1 _
    rw [← h1,
      show renameApply now oldTag newTag [] = fun r => r from
        funext (fun r => rfl), List.map_id']
  | cons ev rest ih =>
    intro hnd store count idx store' count' h
    have hndr : (rest.map Evidence.id).Nodup := by
      rw [List.map_cons, List.nodup_cons] at hnd
      exact hnd.2
    have hevid : ∀ e ∈ rest, e.id ≠ ev.id := by
      rw [List.map_cons, List.nodup_cons] at hnd
      intro e he hc
      exact hnd.1 (hc ▸ List.mem_map_of_mem Evidence.id he)
    rw [renameLoop] at h
    split at h
    · exact absurd h (by simp)
    cases htags : ev.tags with
    | none =>
      rw [htags] at h
      have hrec := ih hndr store count (idx + 1) store' count' h
      rw [hrec]
      apply List.map_congr_left
      intro r _
      by_cases hid : (ev.id == r.id) = true
      · rw [renameApply_found now oldTag newTag (ev :: rest) r ev
          (findCons_pos (fun x => x.id == r.id) ev rest hid), htags,
          renameApply_notfound now oldTag newTag rest r
            (List.find?_eq_none.mpr (fun e he hc => hevid e he (by
              rw [beq_iff_eq] at hc hid
              rw [hc, hid])))]
      · rw [renameApply_cons_skip now oldTag newTag ev rest r (by simpa using hid)]
    | some s =>
      rw [htags] at h
      have hrec := ih hndr _ _ (idx + 1) store' count' h
      rw [hrec, dbUpdateTags, List.map_map]
      apply List.map_congr_left
      intro r _
      simp only [Function.comp]
      by_cases hid : (r.id == ev.id) = true
      · rw [if_pos hid]
        show renameApply now oldTag newTag rest (renameUpd now oldTag newTag s r) =
          renameApply now oldTag newTag (ev :: rest) r
        have hid' : (ev.id == r.id) = true := by
          rw [beq_iff_eq] at hid ⊢
          exact hid.symm
        rw [renameApply_found now oldTag newTag (ev :: rest) r ev
          (findCons_pos (fun x => x.id == r.id) ev rest hid'), htags,
          renameApply_notfound now oldTag newTag rest (renameUpd now oldTag newTag s r)
            (List.find?_eq_none.mpr (fun e he hc => hevid e he (by
              rw [beq_iff_eq] at hc hid
              exact hc.trans hid)))]
      · rw [if_neg hid]
        rw [renameApply_cons_skip now oldTag newTag ev rest r (by
          simp only [beq_eq_false_iff_ne]
          intro hc
          rw [beq_iff_eq] at hid
          exact hid hc.symm)]
/-- C4 counterexample: `renameTag` is driven by the LIKE-based search, so a
record whose parsed tag list contains `oldTag` but whose raw token carries
whitespace is not matched: the rename succeeds while leaving that record
untouched, so the success state does not replace `oldTag` in every record
containing it. -/
theorem C4_counterexample :
    (jstr "x") ∈ parseTags (jstr " x") ∧
    (dbRenameTag [demoEvR3] demoNow (jstr "x") (jstr "n") (fun _ => false)).2 =
      .ok 0 ∧
    (dbRenameTag [demoEvR3] demoNow (jstr "x") (jstr "n") (fun _ => false)).1 =
      [demoEvR3] := by
  decide

/-- C4 (amended): for a clean `oldTag` and a store with distinct ids whose tag
fields are comma-joins of clean tokens, `renameTag(oldTag, newTag)` is atomic
and correct: when it reports an error the returned store is exactly the input
store (the transaction rolled back), and when it reports success every record
whose token list contains `oldTag` has exactly that token replaced by
`newTag` (and its `updatedAt` refreshed) while every other record is
untouched; no mixed state is observable. -/
theorem C4_rename_atomic_amended (store : Store) (now oldTag newTag : JSStr)
    (failAt : Nat → Bool) (hold : cleanTok oldTag)
    (hstore : normalizedTags store) (hids : (store.map Evidence.id).Nodup) :
    (∀ e, (dbRenameTag store now oldTag newTag failAt).2 = .error e →
      (dbRenameTag store now oldTag newTag failAt).1 = store) ∧
    ∀ c, (dbRenameTag store now oldTag newTag failAt).2 = .ok c →
      (dbRenameTag store now oldTag newTag failAt).1 =
        store.map (fun r =>
          match r.tags with
          | some s =>
            if oldTag ∈ splitComma s then renameUpd now oldTag newTag s r else r
          | none => r) := by
  cases hloop : renameLoop now oldTag newTag failAt
      (dbSearch store ⟨none, some [oldTag], none, none, none, none⟩) store 0 0 with
  | error e' =>
    constructor
    · intro e _
      rw [dbRenameTag, hloop]
    · intro c hok
      rw [dbRenameTag, hloop] at hok
      nomatch hok
  | ok p =>
    obtain ⟨s', c'⟩ := p
    constructor
    · intro e herr
      rw [dbRenameTag, hloop] at herr
      nomatch herr
    · intro c _
      rw [dbRenameTag, hloop]
      show s' = _
      have hs' := renameLoop_ok now oldTag newTag failAt
        (dbSearch store ⟨none, some [oldTag], none, none, none, none⟩)
        (dbSearch_ids_nodup store [oldTag] hids) store 0 0 s' c' hloop
      rw [hs']
      apply List.map_congr_left
      intro r hr
      have hfind := find_id_unique store
        (dbSearch store ⟨none, some [oldTag], none, none, none, none⟩) r
        (dbSearch_subset store [oldTag]) hr hids
      have hmem_iff := search_tags_mem_iff store [oldTag]
        (List.forall_mem_singleton.mpr hold) hstore r
      cases htags : r.tags with
      | none =>
        have hnm : r ∉ dbSearch store ⟨none, some [oldTag], none, none, none, none⟩ := by
          intro hm
          have h2 := (hmem_iff.mp hm).2 oldTag (List.mem_singleton.mpr rfl)
          rw [htags] at h2
          exact absurd h2 (by simp [tagTokens])
        rw [renameApply_notfound now oldTag newTag _ r (by rw [hfind, if_neg hnm])]
      | some s =>
        by_cases hin : oldTag ∈ splitComma s
        · have hm : r ∈ dbSearch store ⟨none, some [oldTag], none, none, none, none⟩ := by
            apply hmem_iff.mpr
            refine ⟨hr, ?_⟩
            intro t ht
            rcases List.mem_singleton.mp ht with rfl
            rw [htags]
            simpa [tagTokens] using hin
          rw [renameApply_found now oldTag newTag _ r r (by rw [hfind, if_pos hm]),
            htags]
          show renameUpd now oldTag newTag s r =
            if oldTag ∈ splitComma s then renameUpd now oldTag newTag s r else r
          rw [if_pos hin]
        · have hnm : r ∉ dbSearch store ⟨none, some [oldTag], none, none, none, none⟩ := by
            intro hm
            have h2 := (hmem_iff.mp hm).2 oldTag (List.mem_singleton.mpr rfl)
            rw [htags] at h2
            simp [tagTokens] at h2
            exact hin h2
          rw [renameApply_notfound now oldTag newTag _ r (by rw [hfind, if_neg hnm])]
          show r = if oldTag ∈ splitComma s then renameUpd now oldTag newTag s r else r
          rw [if_neg hin]

/-- Witness for the amended C4: on a two-record store tagged `x,y` and `x`, a
failure injected at the second loop iteration makes `renameTag` report an
error with the store rolled back unchanged — no record shows the new tag. -/
theorem C4_rename_atomic_amended_witness :
    cleanTok (jstr "x") ∧
    normalizedTags demoRenameStore ∧
    (demoRenameStore.map Evidence.id).Nodup ∧
    (dbRenameTag demoRenameStore demoNow (jstr "x") (jstr "z")
        (fun i => i == 1)).2 =
      .error (jstr "Failed to rename tag: simulated storage failure") ∧
    (dbRenameTag demoRenameStore demoNow (jstr "x") (jstr "z")
        (fun i => i == 1)).1 = demoRenameStore := by
  have hstore : normalizedTags demoRenameStore := by
    intro r hr
    have hr2 : r = demoEvR1 ∨ r = demoEvR2 := by
      simpa [demoRenameStore] using hr
    rcases hr2 with rfl | rfl
    · exact Or.inr ⟨[jstr "x", jstr "y"], by decide, by decide, by decide⟩
    · exact Or.inr ⟨[jstr "x"], by decide, by decide, by decide⟩
  have hmain := C4_rename_atomic_amended demoRenameStore demoNow (jstr "x")
    (jstr "z") (fun i => i == 1) (by decide) hstore (by decide)
  exact ⟨by decide, hstore, by decide, by decide,
    hmain.1 (jstr "Failed to rename tag: simulated storage failure") (by decide)⟩
